import Mathlib

/-!
Verification development for the `simple_neat` library (src/lib.rs): a small
neuro-evolution core with an `Agent` data model (three value layers, a
connection list, per-layer activation functions), a forward-pass evaluator
`calculate`, and a mutation operator `reproduce`.

Modelling conventions:
* `f32` values are modelled as `ℚ`; the arbitrary activation functions
  `&dyn Fn(f32) -> f32` become `ℚ → ℚ`.
* `i32` counters are modelled as `ℤ`, `usize` indices as `ℕ`.
  `try_into().unwrap()` from `i32` to `usize` is `tryIntoNat` (failure models
  the panic on negative values).
* Randomness is an injected capability: an `Rng` is an infinite stream of
  rational raw values plus a cursor.  `gen_range(lo..hi)` consumes one raw
  value and yields a value in `[lo, hi)` (for floats: the raw value itself
  when it lies in the range, clamped to `lo` otherwise, so that every value
  of `[lo, hi)` is realisable by some stream; for integers: `lo` plus the
  floored raw value reduced modulo the width).  An empty range models
  `rand`'s panic by returning `none`.
* Rust panics are modelled as `none` (in `Option`) or `Except.error`
  (in `calculate`, where the size-mismatch panic must be distinguished from
  the other panics).
-/

/-- Conversion of an `i32` to `usize` via `try_into().unwrap()`:
fails (panics) exactly on negative values. -/
def tryIntoNat (n : ℤ) : Option ℕ :=
  if 0 ≤ n then some n.toNat else none

/-- The injected randomness source: a stream of raw rational values and a
cursor pointing at the next value to be consumed. -/
structure Rng where
  vals : ℕ → ℚ
  pos : ℕ

/-- Consume one raw value from the stream. -/
def Rng.advance (r : Rng) : Rng := ⟨r.vals, r.pos + 1⟩

/-- A computation that consumes random values and may panic (`none`). -/
def RandM (α : Type) : Type := Rng → Option (α × Rng)

instance : Monad RandM where
  pure a := fun r => some (a, r)
  bind m f := fun r => match m r with
    | none => none
    | some (a, r2) => f a r2

/-- Lift a possibly-panicking pure computation into `RandM`. -/
def liftOpt {α : Type} (o : Option α) : RandM α := fun r =>
  match o with
  | none => none
  | some a => some (a, r)

/-- Model of `rng.gen_range(lo..hi)` on floats: yields a value in
`[lo, hi)` (the raw stream value if it already lies there, else `lo`),
and panics (`none`) when the range is empty, as `rand` does. -/
def genFloat (lo hi : ℚ) : RandM ℚ := fun r =>
  if lo < hi then
    some ((if lo ≤ r.vals r.pos ∧ r.vals r.pos < hi then r.vals r.pos else lo),
      r.advance)
  else none

/-- Model of `rng.gen_range(lo..hi)` on integers: yields
`lo + ((⌊raw⌋ - lo) mod (hi - lo)) ∈ [lo, hi)`, and panics (`none`) when the
range is empty, as `rand` does. -/
def genInt (lo hi : ℤ) : RandM ℤ := fun r =>
  if lo < hi then
    some (lo + (Rat.floor (r.vals r.pos) - lo).emod (hi - lo), r.advance)
  else none

/-- Model of the inclusive-range draw `rng.gen_range(lo..=hi)` at `usize`
type (used for the layer draws `0..=1` and `1..=2`). -/
def genNatIncl (lo hi : ℕ) : RandM ℕ := do
  let v ← genInt (lo : ℤ) ((hi : ℤ) + 1)
  pure v.toNat

/-- A `Connection` record (src/lib.rs lines 18-25): a weighted edge from
slot `start_idx` of layer `start_layer` to slot `end_idx` of layer
`end_layer`. -/
structure Connection where
  start_layer : ℕ
  end_layer : ℕ
  start_idx : ℕ
  end_idx : ℕ
  weight : ℚ
deriving DecidableEq

/-- The `Agent` record (src/lib.rs lines 7-16): counters for the input,
hidden and output layers and the connection list, the three value buffers
`data_lists` (index 0 = input, 1 = hidden, 2 = output), the connection list
and the per-layer activation functions. -/
structure Agent where
  inputs : ℤ
  nodes : ℤ
  connections : ℤ
  outputs : ℤ
  data_lists : List (List ℚ)
  connection_list : List Connection
  activation_funcs : List (ℚ → ℚ)

/-- `Agent::create_agents` (src/lib.rs lines 28-53): `amount` agents, each
with zero hidden nodes, zero connections, zeroed input/output buffers and the
given activation functions.  The `try_into().unwrap()` calls on
`inputs`/`outputs` panic on negative values, but only when the loop body runs
at least once (`amount > 0`). -/
def create_agents (amount inputs outputs : ℤ)
    (activation_funcs : List (ℚ → ℚ)) : Option (List Agent) :=
  if amount.toNat = 0 then some []
  else
    match tryIntoNat inputs, tryIntoNat outputs with
    | some ni, some no =>
        some (List.replicate amount.toNat
          { inputs := inputs, nodes := 0, connections := 0, outputs := outputs,
            data_lists := [List.replicate ni 0, [], List.replicate no 0],
            connection_list := [], activation_funcs := activation_funcs })
    | _, _ => none

/-- The comparator of `sort_connections` (src/lib.rs lines 88-94): compare
`start_layer`, tie-break on `end_layer`. -/
def connCmp (a b : Connection) : Ordering :=
  match compare a.start_layer b.start_layer with
  | Ordering.eq => compare a.end_layer b.end_layer
  | other => other

/-- Boolean ordering derived from the comparator: `a` may precede `b`. -/
def connLe (a b : Connection) : Bool := !(connCmp a b == Ordering.gt)

/-- Stable insertion of `x` into a list: `x` is placed before the first
element it may precede, so elements equivalent to `x` that were already in
the list stay behind it. -/
def insertSorted {α : Type} (le : α → α → Bool) (x : α) : List α → List α
  | [] => [x]
  | y :: ys => if le x y then x :: y :: ys else y :: insertSorted le x ys

/-- Stable insertion sort.  Rust's `Vec::sort_by` is a stable sort with
respect to its comparator; a stable sort with respect to a total comparator
is uniquely determined by sortedness, stability and being a permutation, so
insertion sort is an exact model of it. -/
def sortBy {α : Type} (le : α → α → Bool) : List α → List α
  | [] => []
  | x :: xs => insertSorted le x (sortBy le xs)

/-- `Agent::sort_connections` (src/lib.rs lines 88-94). -/
def sort_connections (a : Agent) : Agent :=
  { a with connection_list := sortBy connLe a.connection_list }

/-- Errors of `Agent::calculate`: the explicit input-size-mismatch panic
(src/lib.rs lines 56-62) versus any other panic (out-of-bounds indexing or
a failing `try_into().unwrap()`). -/
inductive CalcErr where
  | shapeMismatch : CalcErr
  | panic : CalcErr
deriving DecidableEq

/-- Lift a possibly-panicking computation into `Except CalcErr`. -/
def liftE {α : Type} (o : Option α) : Except CalcErr α :=
  match o with
  | none => Except.error CalcErr.panic
  | some a => Except.ok a

/-- The input-length check and input-buffer copy of `calculate`
(src/lib.rs lines 56-64).  The `self.inputs.try_into().unwrap()` runs
before the comparison, and `self.data_lists[0] = input.to_vec()` panics when
`data_lists` is empty. -/
def setInput (a : Agent) (input : List ℚ) : Except CalcErr Agent := do
  let n ← liftE (tryIntoNat a.inputs)
  if input.length ≠ n then
    Except.error CalcErr.shapeMismatch
  else do
    let _ ← liftE (a.data_lists[0]?)
    Except.ok { a with data_lists := a.data_lists.set 0 input }

/-- The output-zeroing loop of `calculate` (src/lib.rs lines 66-68):
`for idx in 0..len { buf[idx] = 0.0 }`. -/
def zeroOut (l : List ℚ) : List ℚ :=
  (List.range l.length).foldl (fun acc idx => acc.set idx 0) l

/-- Zero the output buffer in place (src/lib.rs lines 66-68); reading
`self.data_lists[2]` panics when fewer than three buffers exist. -/
def zeroOutput (a : Agent) : Except CalcErr Agent := do
  let dl2 ← liftE (a.data_lists[2]?)
  Except.ok { a with data_lists := a.data_lists.set 2 (zeroOut dl2) }

/-- The hidden-buffer rebuild loop of `calculate` (src/lib.rs lines 70-74):
after `clear()`, push `0.0` once per iteration of `0..self.nodes` (a range
over `i32`, empty when `nodes ≤ 0`). -/
def pushZeros (n : ℕ) : List ℚ :=
  (List.range n).foldl (fun acc _ => acc ++ [0]) []

/-- Clear and rebuild the hidden buffer (src/lib.rs lines 70-74); reading
`self.data_lists[1]` panics when fewer than two buffers exist. -/
def rebuildHidden (a : Agent) : Except CalcErr Agent := do
  let _ ← liftE (a.data_lists[1]?)
  Except.ok { a with data_lists := a.data_lists.set 1 (pushZeros a.nodes.toNat) }

/-- One iteration of the accumulation loop of `calculate`
(src/lib.rs lines 78-83):
`data_lists[end_layer][end_idx] += activation_funcs[start_layer](data_lists[start_layer][start_idx]) * weight`,
with every indexing panicking when out of bounds. -/
def accumStep (a : Agent) (c : Connection) : Except CalcErr Agent := do
  let f ← liftE (a.activation_funcs[c.start_layer]?)
  let src ← liftE (a.data_lists[c.start_layer]?)
  let v ← liftE (src[c.start_idx]?)
  let dst ← liftE (a.data_lists[c.end_layer]?)
  let old ← liftE (dst[c.end_idx]?)
  let newDst := dst.set c.end_idx (old + f v * c.weight)
  Except.ok { a with data_lists := a.data_lists.set c.end_layer newDst }

/-- The accumulation loop of `calculate` (src/lib.rs lines 78-83), iterating
over the (already sorted) connection list; each step reads the current,
possibly already partially accumulated, source value. -/
def accumAll (a : Agent) : List Connection → Except CalcErr Agent
  | [] => Except.ok a
  | c :: cs => do
    let a2 ← accumStep a c
    accumAll a2 cs

/-- `Agent::calculate` (src/lib.rs lines 55-86): validate and copy the input,
zero the output buffer, rebuild the hidden buffer, sort the connections, run
the accumulation sweep and return a copy of the output buffer. -/
def calculate (a : Agent) (input : List ℚ) : Except CalcErr (Agent × List ℚ) := do
  let a1 ← setInput a input
  let a2 ← zeroOutput a1
  let a3 ← rebuildHidden a2
  let a4 := sort_connections a3
  let a5 ← accumAll a4 a4.connection_list
  let out ← liftE (a5.data_lists[2]?)
  Except.ok (a5, out)

/-- A computation that panics unconditionally. -/
def panicRand {α : Type} : RandM α := fun _ => none

/-- The connection-repair step of the delete-node edit, applied to each
connection in turn (src/lib.rs lines 121-151).  `nodes` is the already
decremented hidden count, `idx` the index of the deleted hidden node.  A
connection referencing exactly `idx` is rewired to a fresh random hidden
index (or falls back to the input layer for a start, the output layer for an
end, when no hidden node remains); a hidden reference above `idx` is shifted
down by one.  The source converts `idx` to `usize` with
`try_into().unwrap()` at each comparison; since `idx` was drawn from
`0..nodes` it is never negative, so the conversion is performed once by the
caller with no observable difference. -/
def repairStart (nodes inputs : ℤ) (idx : ℕ) (c : Connection) :
    RandM Connection :=
  if c.start_layer = 1 ∧ idx ≤ c.start_idx then
    if c.start_idx = idx then
      if 0 < nodes then do
        let j ← genInt 0 nodes
        let jn ← liftOpt (tryIntoNat j)
        pure { c with start_idx := jn }
      else do
        let j ← genInt 0 inputs
        let jn ← liftOpt (tryIntoNat j)
        pure { c with start_layer := 0, start_idx := jn }
    else
      pure { c with start_idx := c.start_idx - 1 }
  else
    pure c

/-- The second half of the repair step (src/lib.rs lines 137-150), acting on
the connection's end reference; it runs on the connection as already
modified by `repairStart`. -/
def repairEnd (nodes outputs : ℤ) (idx : ℕ) (c : Connection) :
    RandM Connection :=
  if c.end_layer = 1 ∧ idx ≤ c.end_idx then
    if c.end_idx = idx then
      if 0 < nodes then do
        let j ← genInt 0 nodes
        let jn ← liftOpt (tryIntoNat j)
        pure { c with end_idx := jn }
      else do
        let j ← genInt 0 outputs
        let jn ← liftOpt (tryIntoNat j)
        pure { c with end_layer := 2, end_idx := jn }
    else
      pure { c with end_idx := c.end_idx - 1 }
  else
    pure c

/-- The full repair of one connection: the start-reference block followed by
the end-reference block (src/lib.rs lines 121-151). -/
def repairConn (nodes inputs outputs : ℤ) (idx : ℕ) (c : Connection) :
    RandM Connection := do
  let c1 ← repairStart nodes inputs idx c
  repairEnd nodes outputs idx c1

/-- Effectful map over a list, consuming random draws left to right, as the
`iter_mut` loop of the delete-node edit does. -/
def mapRand {α β : Type} (f : α → RandM β) : List α → RandM (List β)
  | [] => pure []
  | x :: xs => do
    let y ← f x
    let ys ← mapRand f xs
    pure (y :: ys)

/-- The delete-node edit of `reproduce` (src/lib.rs lines 117-154): gated by
`delete_node_chance` and `nodes > 0`; draws the victim index, decrements
`nodes`, repairs every connection, and pops the last hidden-buffer slot
(`Vec::pop` is a no-op on an empty vector). -/
def editDeleteNode (delete_node_chance : ℚ) (a : Agent) : RandM Agent := do
  let u ← genFloat 0 1
  if u < delete_node_chance ∧ 0 < a.nodes then do
    let idxZ ← genInt 0 a.nodes
    let idx ← liftOpt (tryIntoNat idxZ)
    let a1 := { a with nodes := a.nodes - 1 }
    let conns ← mapRand (repairConn a1.nodes a1.inputs a1.outputs idx)
      a1.connection_list
    let dl1 ← liftOpt (a1.data_lists[1]?)
    pure { a1 with connection_list := conns,
                   data_lists := a1.data_lists.set 1 dl1.dropLast }
  else
    pure a

/-- The add-node edit of `reproduce` (src/lib.rs lines 156-160): gated by
`new_node_chance`; increments `nodes` and appends a zeroed hidden slot. -/
def editAddNode (new_node_chance : ℚ) (a : Agent) : RandM Agent := do
  let u ← genFloat 0 1
  if u < new_node_chance then do
    let dl1 ← liftOpt (a.data_lists[1]?)
    pure { a with nodes := a.nodes + 1,
                  data_lists := a.data_lists.set 1 (dl1 ++ [0]) }
  else
    pure a

/-- The delete-connection edit of `reproduce` (src/lib.rs lines 162-168):
gated by `delete_connection_chance` and `connections > 0`; draws a victim
index, decrements `connections` and removes that list entry (`Vec::remove`
panics when the index is out of bounds). -/
def editDeleteConnection (delete_connection_chance : ℚ) (a : Agent) :
    RandM Agent := do
  let u ← genFloat 0 1
  if u < delete_connection_chance ∧ 0 < a.connections then do
    let idxZ ← genInt 0 a.connections
    let idx ← liftOpt (tryIntoNat idxZ)
    if idx < a.connection_list.length then
      pure { a with connections := a.connections - 1,
                    connection_list := a.connection_list.eraseIdx idx }
    else
      panicRand
  else
    pure a

/-- The add-connection edit of `reproduce` (src/lib.rs lines 170-222): gated
by `new_connection_chance`; increments `connections`, then builds the new
connection.  With hidden nodes present, `start_layer` is drawn from `0..=1`
and `end_layer` from `1..=2` with the matching index ranges; with none, the
connection is forced input→output.  The weight is drawn from
`-max_weight..max_weight` (the draw happens after the two index conversions,
matching the field-order evaluation of the struct literal). -/
def editNewConnection (new_connection_chance max_weight : ℚ) (a : Agent) :
    RandM Agent := do
  let u ← genFloat 0 1
  if u < new_connection_chance then do
    let a1 := { a with connections := a.connections + 1 }
    if 0 < a1.nodes then do
      let start_layer ← genNatIncl 0 1
      let si ← if start_layer = 0 then genInt 0 a1.inputs else genInt 0 a1.nodes
      let end_layer ← genNatIncl 1 2
      let ei ← if end_layer = 1 then genInt 0 a1.nodes else genInt 0 a1.outputs
      let sin ← liftOpt (tryIntoNat si)
      let ein ← liftOpt (tryIntoNat ei)
      let w ← genFloat (-max_weight) max_weight
      let c : Connection := ⟨start_layer, end_layer, sin, ein, w⟩
      pure { a1 with connection_list := a1.connection_list ++ [c] }
    else do
      let si ← genInt 0 a1.inputs
      let ei ← genInt 0 a1.outputs
      let sin ← liftOpt (tryIntoNat si)
      let ein ← liftOpt (tryIntoNat ei)
      let w ← genFloat (-max_weight) max_weight
      let c : Connection := ⟨0, 2, sin, ein, w⟩
      pure { a1 with connection_list := a1.connection_list ++ [c] }
  else
    pure a

/-- The rewire edit of `reproduce` (src/lib.rs lines 224-260): gated by
`change_connection_chance` and `connections > 0`; draws a victim index,
redraws its layers (forced to input→output when no hidden node exists), then
redraws `start_idx` and `end_idx` consistently with the new layers. -/
def editChangeConnection (change_connection_chance : ℚ) (a : Agent) :
    RandM Agent := do
  let u ← genFloat 0 1
  if u < change_connection_chance ∧ 0 < a.connections then do
    let idxZ ← genInt 0 a.connections
    let idx ← liftOpt (tryIntoNat idxZ)
    let c0 ← liftOpt (a.connection_list[idx]?)
    let c1 ←
      if 0 < a.nodes then do
        let nsl ← genNatIncl 0 1
        let nel ← genNatIncl 1 2
        pure { c0 with start_layer := nsl, end_layer := nel }
      else
        pure { c0 with start_layer := 0, end_layer := 2 }
    let c2 ←
      if c1.start_layer = 0 then do
        let si ← genInt 0 a.inputs
        let sin ← liftOpt (tryIntoNat si)
        pure { c1 with start_idx := sin }
      else do
        let si ← genInt 0 a.nodes
        let sin ← liftOpt (tryIntoNat si)
        pure { c1 with start_idx := sin }
    let c3 ←
      if c2.end_layer = 1 then do
        let ei ← genInt 0 a.nodes
        let ein ← liftOpt (tryIntoNat ei)
        pure { c2 with end_idx := ein }
      else do
        let ei ← genInt 0 a.outputs
        let ein ← liftOpt (tryIntoNat ei)
        pure { c2 with end_idx := ein }
    pure { a with connection_list := a.connection_list.set idx c3 }
  else
    pure a

/-- The reweight edit of `reproduce` (src/lib.rs lines 262-266): gated by
`change_weight_chance` and `connections > 0`; draws a victim index and
redraws its weight from `-max_weight..max_weight`. -/
def editChangeWeight (change_weight_chance max_weight : ℚ) (a : Agent) :
    RandM Agent := do
  let u ← genFloat 0 1
  if u < change_weight_chance ∧ 0 < a.connections then do
    let idxZ ← genInt 0 a.connections
    let idx ← liftOpt (tryIntoNat idxZ)
    let c0 ← liftOpt (a.connection_list[idx]?)
    let w ← genFloat (-max_weight) max_weight
    pure { a with connection_list :=
      a.connection_list.set idx { c0 with weight := w } }
  else
    pure a

/-- `Agent::reproduce` (src/lib.rs lines 96-269): clone the parent (pure in
this embedding), then apply the six gated edits in source order: delete
node, add node, delete connection, add connection, rewire connection,
reweight connection.  The parameters appear in the source's signature
order. -/
def reproduce (a : Agent)
    (new_node_chance new_connection_chance delete_node_chance
     delete_connection_chance change_weight_chance change_connection_chance
     max_weight : ℚ) : RandM Agent := do
  let a1 ← editDeleteNode delete_node_chance a
  let a2 ← editAddNode new_node_chance a1
  let a3 ← editDeleteConnection delete_connection_chance a2
  let a4 ← editNewConnection new_connection_chance max_weight a3
  let a5 ← editChangeConnection change_connection_chance a4
  editChangeWeight change_weight_chance max_weight a5

/-- The method call `self.reproduce(...)` as seen by the caller: `self` is
taken by shared reference, so the call leaves it untouched (first component)
and yields the offspring computation's result (second component). -/
def reproduceMethod (a : Agent)
    (new_node_chance new_connection_chance delete_node_chance
     delete_connection_chance change_weight_chance change_connection_chance
     max_weight : ℚ) (r : Rng) : Agent × Option (Agent × Rng) :=
  (a, reproduce a new_node_chance new_connection_chance delete_node_chance
       delete_connection_chance change_weight_chance change_connection_chance
       max_weight r)

/-- One `reproduce` call of a generation sequence: its rate parameters and
the randomness it consumes. -/
structure RepCall where
  new_node_chance : ℚ
  new_connection_chance : ℚ
  delete_node_chance : ℚ
  delete_connection_chance : ℚ
  change_weight_chance : ℚ
  change_connection_chance : ℚ
  max_weight : ℚ
  rng : Rng

/-- A finite sequence of `reproduce` calls applied to an agent; `none` when
any call panics. -/
def reproduceChain : Agent → List RepCall → Option Agent
  | a, [] => some a
  | a, s :: rest =>
    Option.bind (reproduce a s.new_node_chance s.new_connection_chance
        s.delete_node_chance s.delete_connection_chance s.change_weight_chance
        s.change_connection_chance s.max_weight s.rng)
      (fun p => reproduceChain p.1 rest)

/-- The value buffer of layer `i` (empty when `i` is not a valid layer). -/
def buf (a : Agent) (i : ℕ) : List ℚ := (a.data_lists[i]?).getD []

/-- Referential integrity of one connection with respect to the given layer
sizes: each endpoint names a valid layer and an index inside it. -/
def ConnWF (inputs nodes outputs : ℤ) (c : Connection) : Prop :=
  (c.start_layer = 0 ∧ c.start_idx < inputs.toNat ∨
   c.start_layer = 1 ∧ c.start_idx < nodes.toNat) ∧
  (c.end_layer = 1 ∧ c.end_idx < nodes.toNat ∨
   c.end_layer = 2 ∧ c.end_idx < outputs.toNat)

/-- The bookkeeping invariants of the spec: the two count fields are
non-negative and agree with the lengths of the connection list and of the
hidden buffer. -/
def SyncInv (a : Agent) : Prop :=
  0 ≤ a.nodes ∧ 0 ≤ a.connections ∧
  a.connections.toNat = a.connection_list.length ∧
  a.nodes.toNat = (buf a 1).length

/-- Full well-formedness of an agent, as established by `create_agents` and
preserved by `reproduce`: non-negative counters, count/buffer agreement,
exactly three value buffers of the declared sizes, and referential integrity
of every connection. -/
def AgentWF (a : Agent) : Prop :=
  0 ≤ a.inputs ∧ 0 ≤ a.outputs ∧ SyncInv a ∧
  a.data_lists.length = 3 ∧
  (buf a 0).length = a.inputs.toNat ∧
  (buf a 2).length = a.outputs.toNat ∧
  ∀ c ∈ a.connection_list, ConnWF a.inputs a.nodes a.outputs c

instance (i n o : ℤ) (c : Connection) : Decidable (ConnWF i n o c) := by
  unfold ConnWF; infer_instance

instance (a : Agent) : Decidable (SyncInv a) := by
  unfold SyncInv; infer_instance

instance (a : Agent) : Decidable (AgentWF a) := by
  unfold AgentWF; infer_instance

theorem randPure_apply {α : Type} (a : α) (r : Rng) :
    (pure a : RandM α) r = some (a, r) := rfl

theorem randBind_eq_some {α β : Type} {m : RandM α} {f : α → RandM β} {r : Rng}
    {b : β} {r2 : Rng} :
    (m >>= f) r = some (b, r2) ↔
      ∃ a r1, m r = some (a, r1) ∧ f a r1 = some (b, r2) := by
  show (match m r with | none => none | some (a, r1) => f a r1) = _ ↔ _
  cases h : m r with
  | none => simp
  | some p =>
    cases p with
    | mk a r1 =>
      constructor
      · intro hf
        exact ⟨a, r1, rfl, hf⟩
      · rintro ⟨a1, r11, heq, hf⟩
        rw [Option.some.injEq, Prod.mk.injEq] at heq
        rw [heq.1, heq.2]
        exact hf

theorem liftOpt_eq_some {α : Type} {o : Option α} {r : Rng} {b : α} {r2 : Rng} :
    liftOpt o r = some (b, r2) ↔ o = some b ∧ r2 = r := by
  unfold liftOpt
  cases o with
  | none => simp
  | some a => simp [eq_comm, and_comm]

theorem tryIntoNat_eq_some {z : ℤ} {n : ℕ} :
    tryIntoNat z = some n ↔ 0 ≤ z ∧ n = z.toNat := by
  unfold tryIntoNat
  split <;> simp_all [eq_comm]

theorem genFloat_eq_some {lo hi : ℚ} {r : Rng} {v : ℚ} {r2 : Rng}
    (h : genFloat lo hi r = some (v, r2)) :
    lo ≤ v ∧ v < hi ∧ r2 = r.advance := by
  unfold genFloat at h
  split at h
  · rename_i hlt
    rw [Option.some.injEq, Prod.mk.injEq] at h
    obtain ⟨hv, hr⟩ := h
    subst hv
    by_cases hc : lo ≤ r.vals r.pos ∧ r.vals r.pos < hi
    · rw [if_pos hc]; exact ⟨hc.1, hc.2, hr.symm⟩
    · rw [if_neg hc]; exact ⟨le_refl lo, hlt, hr.symm⟩
  · exact absurd h (by simp)

theorem genFloat_of_mem {lo hi v : ℚ} (p : ℕ) (h1 : lo ≤ v) (h2 : v < hi) :
    genFloat lo hi ⟨fun _ => v, p⟩ = some (v, ⟨fun _ => v, p + 1⟩) := by
  unfold genFloat
  rw [if_pos (lt_of_le_of_lt h1 h2), if_pos ⟨h1, h2⟩]
  rfl

theorem genInt_eq_some {lo hi : ℤ} {r : Rng} {v : ℤ} {r2 : Rng}
    (h : genInt lo hi r = some (v, r2)) :
    lo ≤ v ∧ v < hi ∧ r2 = r.advance := by
  unfold genInt at h
  split at h
  · rename_i hlt
    rw [Option.some.injEq, Prod.mk.injEq] at h
    obtain ⟨hv, hr⟩ := h
    have h1 : 0 ≤ (Rat.floor (r.vals r.pos) - lo).emod (hi - lo) :=
      Int.emod_nonneg _ (by omega)
    have h2 : (Rat.floor (r.vals r.pos) - lo).emod (hi - lo) < hi - lo :=
      Int.emod_lt_of_pos _ (by omega)
    exact ⟨by omega, by omega, hr.symm⟩
  · exact absurd h (by simp)

theorem genInt_isSome (lo hi : ℤ) (r : Rng) (hlt : lo < hi) :
    ∃ v r2, genInt lo hi r = some (v, r2) := by
  unfold genInt
  rw [if_pos hlt]
  exact ⟨_, _, rfl⟩

theorem genFloat_isSome (lo hi : ℚ) (r : Rng) (hlt : lo < hi) :
    ∃ v r2, genFloat lo hi r = some (v, r2) := by
  unfold genFloat
  rw [if_pos hlt]
  exact ⟨_, _, rfl⟩

theorem genNatIncl_eq_some {lo hi : ℕ} {r : Rng} {v : ℕ} {r2 : Rng}
    (h : genNatIncl lo hi r = some (v, r2)) :
    lo ≤ v ∧ v ≤ hi ∧ r2 = r.advance := by
  unfold genNatIncl at h
  rw [randBind_eq_some] at h
  obtain ⟨z, r1, hz, hp⟩ := h
  obtain ⟨hz1, hz2, hz3⟩ := genInt_eq_some hz
  rw [randPure_apply, Option.some.injEq, Prod.mk.injEq] at hp
  obtain ⟨hv, hr⟩ := hp
  subst hv
  exact ⟨by omega, by omega, by rw [← hr, hz3]⟩

theorem genNatIncl_isSome (lo hi : ℕ) (r : Rng) (hle : lo ≤ hi) :
    ∃ v r2, genNatIncl lo hi r = some (v, r2) := by
  unfold genNatIncl
  obtain ⟨z, r2, hz⟩ := genInt_isSome (lo : ℤ) ((hi : ℤ) + 1) r (by omega)
  refine ⟨z.toNat, r2, ?_⟩
  rw [randBind_eq_some]
  exact ⟨z, r2, hz, rfl⟩

theorem connCmp_gt_iff {a b : Connection} :
    connCmp a b = Ordering.gt ↔
      b.start_layer < a.start_layer ∨
      a.start_layer = b.start_layer ∧ b.end_layer < a.end_layer := by
  unfold connCmp
  rcases Nat.lt_trichotomy a.start_layer b.start_layer with h | h | h
  · rw [Nat.compare_eq_lt.mpr h]
    simp
    omega
  · rw [Nat.compare_eq_eq.mpr h]
    constructor
    · intro hg
      exact Or.inr ⟨h, Nat.compare_eq_gt.mp hg⟩
    · rintro (hlt | ⟨_, hlt⟩)
      · omega
      · exact Nat.compare_eq_gt.mpr hlt
  · rw [Nat.compare_eq_gt.mpr h]
    simp
    omega

theorem connLe_iff {a b : Connection} :
    connLe a b = true ↔
      a.start_layer < b.start_layer ∨
      a.start_layer = b.start_layer ∧ a.end_layer ≤ b.end_layer := by
  have hbeq : connLe a b = true ↔ connCmp a b ≠ Ordering.gt := by
    unfold connLe
    cases connCmp a b <;> simp <;> rfl
  rw [hbeq, Ne, connCmp_gt_iff]
  omega

theorem connLe_total (a b : Connection) :
    connLe a b = true ∨ connLe b a = true := by
  rw [connLe_iff, connLe_iff]
  omega

theorem insertSorted_head {α : Type} (le : α → α → Bool) (x : α) (l : List α) :
    ∀ z ∈ (insertSorted le x l).head?, z = x ∨ l.head? = some z := by
  cases l with
  | nil => simp [insertSorted]
  | cons y ys =>
    unfold insertSorted
    split <;> simp

theorem insertSorted_chain {α : Type} (le : α → α → Bool)
    (htot : ∀ a b, le a b = true ∨ le b a = true) (x : α) (l : List α)
    (h : List.Chain' (fun a b => le a b = true) l) :
    List.Chain' (fun a b => le a b = true) (insertSorted le x l) := by
  induction l with
  | nil => exact List.chain'_singleton x
  | cons y ys ih =>
    unfold insertSorted
    split
    · rename_i hxy
      exact List.chain'_cons.mpr ⟨hxy, h⟩
    · rename_i hxy
      have hyx : le y x = true := by
        rcases htot x y with h1 | h1
        · exact absurd h1 hxy
        · exact h1
      rw [List.chain'_cons'] at h
      refine List.chain'_cons'.mpr ⟨?_, ih h.2⟩
      intro z hz
      rcases insertSorted_head le x ys z hz with hzx | hzy
      · rw [hzx]; exact hyx
      · exact h.1 z hzy

theorem sortBy_chain {α : Type} (le : α → α → Bool)
    (htot : ∀ a b, le a b = true ∨ le b a = true) (l : List α) :
    List.Chain' (fun a b => le a b = true) (sortBy le l) := by
  induction l with
  | nil => exact List.chain'_nil
  | cons x xs ih => exact insertSorted_chain le htot x (sortBy le xs) ih

theorem sortBy_eq_self {α : Type} (le : α → α → Bool) (l : List α)
    (h : List.Chain' (fun a b => le a b = true) l) : sortBy le l = l := by
  induction l with
  | nil => rfl
  | cons x xs ih =>
    rw [List.chain'_cons'] at h
    show insertSorted le x (sortBy le xs) = x :: xs
    rw [ih h.2]
    cases xs with
    | nil => rfl
    | cons y ys =>
      unfold insertSorted
      rw [if_pos (h.1 y rfl)]

theorem sortBy_idem {α : Type} (le : α → α → Bool)
    (htot : ∀ a b, le a b = true ∨ le b a = true) (l : List α) :
    sortBy le (sortBy le l) = sortBy le l :=
  sortBy_eq_self le (sortBy le l) (sortBy_chain le htot l)

theorem exceptBind_eq_ok {α β : Type} {x : Except CalcErr α}
    {f : α → Except CalcErr β} {b : β} :
    (x >>= f) = Except.ok b ↔ ∃ a, x = Except.ok a ∧ f a = Except.ok b := by
  cases x <;> simp [Bind.bind, Except.bind]

theorem exceptBind_eq_error {α β : Type} {x : Except CalcErr α}
    {f : α → Except CalcErr β} {e : CalcErr} :
    (x >>= f) = Except.error e ↔
      x = Except.error e ∨ ∃ a, x = Except.ok a ∧ f a = Except.error e := by
  cases x <;> simp [Bind.bind, Except.bind]

theorem liftE_eq_ok {α : Type} {o : Option α} {a : α} :
    liftE o = Except.ok a ↔ o = some a := by
  unfold liftE
  cases o <;> simp

theorem liftE_eq_error {α : Type} {o : Option α} {e : CalcErr}
    (h : liftE o = Except.error e) : e = CalcErr.panic := by
  unfold liftE at h
  cases o with
  | none => cases h; rfl
  | some a => cases h

theorem setInput_eq_ok {a : Agent} {input : List ℚ} {b : Agent} :
    setInput a input = Except.ok b ↔
      0 ≤ a.inputs ∧ input.length = a.inputs.toNat ∧ 0 < a.data_lists.length ∧
      b = { a with data_lists := a.data_lists.set 0 input } := by
  unfold setInput
  constructor
  · intro h
    rw [exceptBind_eq_ok] at h
    obtain ⟨n, hn, h⟩ := h
    rw [liftE_eq_ok, tryIntoNat_eq_some] at hn
    split at h
    · exact absurd h (by simp)
    · rename_i hne
      rw [exceptBind_eq_ok] at h
      obtain ⟨x, hx, h⟩ := h
      rw [liftE_eq_ok, List.getElem?_eq_some_iff] at hx
      obtain ⟨hlen, _⟩ := hx
      rw [Except.ok.injEq] at h
      refine ⟨hn.1, ?_, hlen, h.symm⟩
      omega
  · rintro ⟨h0, hlen, hdl, hb⟩
    rw [exceptBind_eq_ok]
    refine ⟨a.inputs.toNat, by rw [liftE_eq_ok, tryIntoNat_eq_some]; exact ⟨h0, rfl⟩, ?_⟩
    rw [if_neg (by omega)]
    rw [exceptBind_eq_ok]
    have hx : ∃ x, a.data_lists[0]? = some x := ⟨_, List.getElem?_eq_getElem hdl⟩
    obtain ⟨x, hx⟩ := hx
    exact ⟨x, by rw [liftE_eq_ok]; exact hx, by rw [hb]⟩

theorem setInput_eq_shape {a : Agent} {input : List ℚ} :
    setInput a input = Except.error CalcErr.shapeMismatch ↔
      0 ≤ a.inputs ∧ input.length ≠ a.inputs.toNat := by
  unfold setInput
  rw [exceptBind_eq_error]
  constructor
  · rintro (h | ⟨n, hn, h⟩)
    · exact absurd (liftE_eq_error h) (by decide)
    · rw [liftE_eq_ok, tryIntoNat_eq_some] at hn
      split at h
      · rename_i hne
        exact ⟨hn.1, by omega⟩
      · rw [exceptBind_eq_error] at h
        rcases h with h | ⟨x, _, h⟩
        · exact absurd (liftE_eq_error h) (by decide)
        · exact absurd h (by simp)
  · rintro ⟨h0, hne⟩
    refine Or.inr ⟨a.inputs.toNat, by rw [liftE_eq_ok, tryIntoNat_eq_some]; exact ⟨h0, rfl⟩, ?_⟩
    rw [if_pos hne]

theorem zeroOutput_eq_ok {a : Agent} {b : Agent} :
    zeroOutput a = Except.ok b ↔
      2 < a.data_lists.length ∧
      b = { a with data_lists :=
        a.data_lists.set 2 (zeroOut (a.data_lists[2]?.getD [])) } := by
  unfold zeroOutput
  rw [exceptBind_eq_ok]
  constructor
  · rintro ⟨dl2, hdl2, h⟩
    rw [liftE_eq_ok] at hdl2
    rw [Except.ok.injEq] at h
    have hlen : 2 < a.data_lists.length := by
      rcases List.getElem?_eq_some_iff.mp hdl2 with ⟨hl, _⟩
      exact hl
    refine ⟨hlen, ?_⟩
    rw [← h, hdl2]
    rfl
  · rintro ⟨hlen, hb⟩
    refine ⟨a.data_lists[2]?.getD [], ?_, ?_⟩
    · rw [liftE_eq_ok, List.getElem?_eq_getElem hlen]
      rfl
    · rw [hb, List.getElem?_eq_getElem hlen]

theorem rebuildHidden_eq_ok {a : Agent} {b : Agent} :
    rebuildHidden a = Except.ok b ↔
      1 < a.data_lists.length ∧
      b = { a with data_lists :=
        a.data_lists.set 1 (pushZeros a.nodes.toNat) } := by
  unfold rebuildHidden
  rw [exceptBind_eq_ok]
  constructor
  · rintro ⟨dl1, hdl1, h⟩
    rw [liftE_eq_ok] at hdl1
    rw [Except.ok.injEq] at h
    rcases List.getElem?_eq_some_iff.mp hdl1 with ⟨hl, _⟩
    exact ⟨hl, h.symm⟩
  · rintro ⟨hlen, hb⟩
    exact ⟨_, by rw [liftE_eq_ok]; exact List.getElem?_eq_getElem hlen, by rw [hb]⟩

theorem zeroOut_aux_length (n : ℕ) (l : List ℚ) :
    ((List.range n).foldl (fun acc idx => acc.set idx 0) l).length = l.length := by
  induction n with
  | zero => rfl
  | succ m ih =>
    rw [List.range_succ, List.foldl_append]
    simp only [List.foldl_cons, List.foldl_nil, List.length_set]
    exact ih

theorem zeroOut_aux_getElem (n : ℕ) (l : List ℚ) (j : ℕ) :
    ((List.range n).foldl (fun acc idx => acc.set idx 0) l)[j]? =
      if j < n ∧ j < l.length then some 0 else l[j]? := by
  induction n with
  | zero => simp
  | succ m ih =>
    rw [List.range_succ, List.foldl_append]
    simp only [List.foldl_cons, List.foldl_nil]
    rw [List.getElem?_set, zeroOut_aux_length, ih]
    by_cases hj : m = j
    · subst hj
      rw [if_pos rfl]
      by_cases hl : m < l.length
      · rw [if_pos hl, if_pos ⟨by omega, hl⟩]
      · rw [if_neg hl, if_neg (by omega), List.getElem?_eq_none_iff.mpr (by omega)]
    · rw [if_neg hj]
      by_cases hc : j < m ∧ j < l.length
      · rw [if_pos hc, if_pos ⟨by omega, hc.2⟩]
      · rw [if_neg hc]
        by_cases hc2 : j < m + 1 ∧ j < l.length
        · exact absurd rfl (by omega : m ≠ m)
        · rw [if_neg hc2]

theorem zeroOut_eq (l : List ℚ) : zeroOut l = List.replicate l.length 0 := by
  apply List.ext_getElem?
  intro j
  rw [zeroOut, zeroOut_aux_getElem, List.getElem?_replicate]
  by_cases hj : j < l.length
  · rw [if_pos ⟨hj, hj⟩, if_pos hj]
  · rw [if_neg (by omega), if_neg hj, List.getElem?_eq_none_iff.mpr (by omega)]

theorem pushZeros_eq (n : ℕ) : pushZeros n = List.replicate n 0 := by
  unfold pushZeros
  induction n with
  | zero => rfl
  | succ m ih =>
    rw [List.range_succ, List.foldl_append]
    simp only [List.foldl_cons, List.foldl_nil]
    rw [ih, List.replicate_succ']

theorem Agent.ext2 {x y : Agent} (h1 : x.inputs = y.inputs)
    (h2 : x.nodes = y.nodes) (h3 : x.connections = y.connections)
    (h4 : x.outputs = y.outputs) (h5 : x.data_lists = y.data_lists)
    (h6 : x.connection_list = y.connection_list)
    (h7 : x.activation_funcs = y.activation_funcs) : x = y := by
  cases x
  cases y
  simp_all

theorem mem_insertSorted {α : Type} {le : α → α → Bool} {x y : α} {l : List α} :
    y ∈ insertSorted le x l ↔ y = x ∨ y ∈ l := by
  induction l with
  | nil => simp [insertSorted]
  | cons z zs ih =>
    unfold insertSorted
    split
    · simp
    · simp only [List.mem_cons, ih]
      tauto

theorem mem_sortBy {α : Type} {le : α → α → Bool} {y : α} {l : List α} :
    y ∈ sortBy le l ↔ y ∈ l := by
  induction l with
  | nil => simp [sortBy]
  | cons x xs ih =>
    show y ∈ insertSorted le x (sortBy le xs) ↔ _
    rw [mem_insertSorted, ih]
    simp

theorem accumStep_shape {a : Agent} {c : Connection} {b : Agent}
    (h : accumStep a c = Except.ok b) :
    ∃ dst w, a.data_lists[c.end_layer]? = some dst ∧
      b = { a with data_lists :=
        a.data_lists.set c.end_layer (dst.set c.end_idx w) } := by
  unfold accumStep at h
  rw [exceptBind_eq_ok] at h
  obtain ⟨f, hf, h⟩ := h
  rw [exceptBind_eq_ok] at h
  obtain ⟨src, hsrc, h⟩ := h
  rw [exceptBind_eq_ok] at h
  obtain ⟨v, hv, h⟩ := h
  rw [exceptBind_eq_ok] at h
  obtain ⟨dst, hdst, h⟩ := h
  rw [exceptBind_eq_ok] at h
  obtain ⟨old, hold, h⟩ := h
  rw [liftE_eq_ok] at hdst
  rw [Except.ok.injEq] at h
  exact ⟨dst, old + f v * c.weight, hdst, h.symm⟩

theorem accumStep_fields {a : Agent} {c : Connection} {b : Agent}
    (h : accumStep a c = Except.ok b) :
    b.inputs = a.inputs ∧ b.nodes = a.nodes ∧ b.connections = a.connections ∧
    b.outputs = a.outputs ∧ b.connection_list = a.connection_list ∧
    b.activation_funcs = a.activation_funcs ∧
    b.data_lists.length = a.data_lists.length ∧
    (∀ i : ℕ, (b.data_lists[i]?.getD []).length = (a.data_lists[i]?.getD []).length) ∧
    (∀ i : ℕ, i ≠ c.end_layer → b.data_lists[i]? = a.data_lists[i]?) := by
  obtain ⟨dst, w, hdst, hb⟩ := accumStep_shape h
  subst hb
  refine ⟨rfl, rfl, rfl, rfl, rfl, rfl, List.length_set .., ?_, ?_⟩
  · intro i
    by_cases hi : i = c.end_layer
    · subst hi
      have hlen : c.end_layer < a.data_lists.length := by
        rcases List.getElem?_eq_some_iff.mp hdst with ⟨hl, _⟩
        exact hl
      simp only [List.getElem?_set_self hlen, hdst, Option.getD_some, List.length_set]
    · simp only [List.getElem?_set_ne (fun he => hi he.symm)]
  · intro i hi
    exact List.getElem?_set_ne (fun he => hi he.symm)

theorem accumAll_fields {l : List Connection} {a b : Agent}
    (h : accumAll a l = Except.ok b) :
    b.inputs = a.inputs ∧ b.nodes = a.nodes ∧ b.connections = a.connections ∧
    b.outputs = a.outputs ∧ b.connection_list = a.connection_list ∧
    b.activation_funcs = a.activation_funcs ∧
    b.data_lists.length = a.data_lists.length ∧
    (∀ i : ℕ, (b.data_lists[i]?.getD []).length = (a.data_lists[i]?.getD []).length) := by
  induction l generalizing a with
  | nil =>
    unfold accumAll at h
    rw [Except.ok.injEq] at h
    subst h
    exact ⟨rfl, rfl, rfl, rfl, rfl, rfl, rfl, fun _ => rfl⟩
  | cons c cs ih =>
    unfold accumAll at h
    rw [exceptBind_eq_ok] at h
    obtain ⟨a2, h2, h⟩ := h
    obtain ⟨s1, s2, s3, s4, s5, s6, s7, s8, _⟩ := accumStep_fields h2
    obtain ⟨t1, t2, t3, t4, t5, t6, t7, t8⟩ := ih h
    exact ⟨t1.trans s1, t2.trans s2, t3.trans s3, t4.trans s4, t5.trans s5,
      t6.trans s6, t7.trans s7, fun i => (t8 i).trans (s8 i)⟩

theorem accumAll_untouched {l : List Connection} {a b : Agent}
    (h : accumAll a l = Except.ok b) (i : ℕ)
    (hi : ∀ c ∈ l, c.end_layer ≠ i) :
    b.data_lists[i]? = a.data_lists[i]? := by
  induction l generalizing a with
  | nil =>
    unfold accumAll at h
    rw [Except.ok.injEq] at h
    subst h
    rfl
  | cons c cs ih =>
    unfold accumAll at h
    rw [exceptBind_eq_ok] at h
    obtain ⟨a2, h2, h⟩ := h
    obtain ⟨_, _, _, _, _, _, _, _, s9⟩ := accumStep_fields h2
    have hrest := ih h (fun d hd => hi d (List.mem_cons_of_mem c hd))
    rw [hrest, s9 i (fun he => hi c (List.mem_cons_self c cs) he.symm)]

theorem calculate_eq_ok {a : Agent} {input : List ℚ} {p : Agent × List ℚ} :
    calculate a input = Except.ok p ↔
      ∃ a1 a2 a3 a5 out,
        setInput a input = Except.ok a1 ∧
        zeroOutput a1 = Except.ok a2 ∧
        rebuildHidden a2 = Except.ok a3 ∧
        accumAll (sort_connections a3) (sort_connections a3).connection_list =
          Except.ok a5 ∧
        a5.data_lists[2]? = some out ∧ p = (a5, out) := by
  unfold calculate
  constructor
  · intro h
    rw [exceptBind_eq_ok] at h
    obtain ⟨a1, h1, h⟩ := h
    rw [exceptBind_eq_ok] at h
    obtain ⟨a2, h2, h⟩ := h
    rw [exceptBind_eq_ok] at h
    obtain ⟨a3, h3, h⟩ := h
    rw [exceptBind_eq_ok] at h
    obtain ⟨a5, h5, h⟩ := h
    rw [exceptBind_eq_ok] at h
    obtain ⟨out, hout, h⟩ := h
    rw [liftE_eq_ok] at hout
    rw [Except.ok.injEq] at h
    exact ⟨a1, a2, a3, a5, out, h1, h2, h3, h5, hout, h.symm⟩
  · rintro ⟨a1, a2, a3, a5, out, h1, h2, h3, h5, hout, hp⟩
    rw [exceptBind_eq_ok]
    refine ⟨a1, h1, ?_⟩
    rw [exceptBind_eq_ok]
    refine ⟨a2, h2, ?_⟩
    rw [exceptBind_eq_ok]
    refine ⟨a3, h3, ?_⟩
    rw [exceptBind_eq_ok]
    refine ⟨a5, h5, ?_⟩
    rw [exceptBind_eq_ok]
    refine ⟨out, by rw [liftE_eq_ok]; exact hout, ?_⟩
    rw [hp]

theorem zeroOutput_error {a : Agent} {e : CalcErr}
    (h : zeroOutput a = Except.error e) : e = CalcErr.panic := by
  unfold zeroOutput at h
  rw [exceptBind_eq_error] at h
  rcases h with h | ⟨dl2, _, h⟩
  · exact liftE_eq_error h
  · exact absurd h (by simp)

theorem rebuildHidden_error {a : Agent} {e : CalcErr}
    (h : rebuildHidden a = Except.error e) : e = CalcErr.panic := by
  unfold rebuildHidden at h
  rw [exceptBind_eq_error] at h
  rcases h with h | ⟨dl1, _, h⟩
  · exact liftE_eq_error h
  · exact absurd h (by simp)

theorem accumStep_error {a : Agent} {c : Connection} {e : CalcErr}
    (h : accumStep a c = Except.error e) : e = CalcErr.panic := by
  unfold accumStep at h
  rw [exceptBind_eq_error] at h
  rcases h with h | ⟨f, _, h⟩
  · exact liftE_eq_error h
  rw [exceptBind_eq_error] at h
  rcases h with h | ⟨src, _, h⟩
  · exact liftE_eq_error h
  rw [exceptBind_eq_error] at h
  rcases h with h | ⟨v, _, h⟩
  · exact liftE_eq_error h
  rw [exceptBind_eq_error] at h
  rcases h with h | ⟨dst, _, h⟩
  · exact liftE_eq_error h
  rw [exceptBind_eq_error] at h
  rcases h with h | ⟨old, _, h⟩
  · exact liftE_eq_error h
  · exact absurd h (by simp)

theorem accumAll_error {l : List Connection} {a : Agent} {e : CalcErr}
    (h : accumAll a l = Except.error e) : e = CalcErr.panic := by
  induction l generalizing a with
  | nil =>
    unfold accumAll at h
    exact absurd h (by simp)
  | cons c cs ih =>
    unfold accumAll at h
    rw [exceptBind_eq_error] at h
    rcases h with h | ⟨a2, _, h⟩
    · exact accumStep_error h
    · exact ih h

/-- A concrete two-input, one-output, fully disconnected agent, exactly as
produced by `create_agents 1 2 1 []`. -/
def testAgent : Agent :=
  { inputs := 2, nodes := 0, connections := 0, outputs := 1,
    data_lists := [[0, 0], [], [0]], connection_list := [],
    activation_funcs := [] }

/-- The all-zero randomness stream. -/
def zeroRng : Rng := ⟨fun _ => 0, 0⟩

/-- C4: `calculate` fails with the shape-mismatch error if and only if the
length of the given input vector differs from the agent's declared input
count (non-negative for any really constructible agent); all other failure
modes surface as a different error, and on failure the error is returned to
the caller. -/
theorem C4_shape_mismatch_iff (a : Agent) (input : List ℚ) (h0 : 0 ≤ a.inputs) :
    calculate a input = Except.error CalcErr.shapeMismatch ↔
      input.length ≠ a.inputs.toNat := by
  unfold calculate
  constructor
  · intro h
    rw [exceptBind_eq_error] at h
    rcases h with h | ⟨a1, h1, h⟩
    · exact (setInput_eq_shape.mp h).2
    · exfalso
      rw [exceptBind_eq_error] at h
      rcases h with h | ⟨a2, h2, h⟩
      · exact absurd (zeroOutput_error h) (by decide)
      rw [exceptBind_eq_error] at h
      rcases h with h | ⟨a3, h3, h⟩
      · exact absurd (rebuildHidden_error h) (by decide)
      rw [exceptBind_eq_error] at h
      rcases h with h | ⟨a5, h5, h⟩
      · exact absurd (accumAll_error h) (by decide)
      rw [exceptBind_eq_error] at h
      rcases h with h | ⟨out, hout, h⟩
      · exact absurd (liftE_eq_error h) (by decide)
      · exact absurd h (by simp)
  · intro hne
    rw [exceptBind_eq_error]
    exact Or.inl (setInput_eq_shape.mpr ⟨h0, hne⟩)

/-- Witness for C4 at a concrete agent: a one-element input on a two-input
agent is rejected with the shape-mismatch error, while a two-element input is
not. -/
theorem C4_shape_mismatch_iff_witness :
    calculate testAgent [3] = Except.error CalcErr.shapeMismatch ∧
    ¬ calculate testAgent [3, 4] = Except.error CalcErr.shapeMismatch :=
  ⟨(C4_shape_mismatch_iff testAgent [3] (by decide)).mpr (by decide),
   fun h => absurd ((C4_shape_mismatch_iff testAgent [3, 4] (by decide)).mp h)
     (by decide)⟩

/-- C5: on every well-formed agent, whenever `calculate` returns an output
vector, its length equals the agent's declared output count. -/
theorem C5_output_length (a : Agent) (input : List ℚ) (b : Agent)
    (out : List ℚ) (hwf : AgentWF a)
    (h : calculate a input = Except.ok (b, out)) :
    out.length = a.outputs.toNat := by
  obtain ⟨-, -, -, -, -, hlen2, -⟩ := hwf
  rw [calculate_eq_ok] at h
  obtain ⟨a1, a2, a3, a5, out2, h1, h2, h3, h5, hout, hp⟩ := h
  rw [Prod.mk.injEq] at hp
  obtain ⟨hb, ho⟩ := hp
  subst ho
  rw [setInput_eq_ok] at h1
  obtain ⟨-, -, hdl0, ha1⟩ := h1
  subst ha1
  rw [zeroOutput_eq_ok] at h2
  obtain ⟨hlen2a, ha2⟩ := h2
  subst ha2
  rw [rebuildHidden_eq_ok] at h3
  obtain ⟨hlen1a, ha3⟩ := h3
  subst ha3
  obtain ⟨-, -, -, -, -, -, -, t8⟩ := accumAll_fields h5
  have e1 := t8 2
  simp only [sort_connections] at e1
  have e2 : ((a.data_lists.set 0 input).set 2
      (zeroOut ((a.data_lists.set 0 input)[2]?.getD [])))[2]? =
      some (zeroOut ((a.data_lists.set 0 input)[2]?.getD [])) :=
    List.getElem?_set_self (by simpa using hlen2a)
  have e3 : (a.data_lists.set 0 input)[2]? = a.data_lists[2]? :=
    List.getElem?_set_ne (by omega)
  rw [hout, Option.getD_some,
    List.getElem?_set_ne (by omega : (1 : ℕ) ≠ 2), e2, Option.getD_some,
    zeroOut_eq, List.length_replicate, e3] at e1
  unfold buf at hlen2
  exact e1.trans hlen2

/-- Witness for C5 at a concrete agent: `calculate` on the two-input
one-output agent returns a vector of length one. -/
theorem C5_output_length_witness :
    ∃ b out, calculate testAgent [3, 4] = Except.ok (b, out) ∧
      out.length = testAgent.outputs.toNat :=
  ⟨_, _, rfl, C5_output_length testAgent [3, 4] _ _ (by decide) rfl⟩

/-- The sort order worded by the spec: ascending lexicographic order on the
pair `(start_layer, end_layer)`. -/
def specLe (a b : Connection) : Bool :=
  decide (a.start_layer < b.start_layer) ||
    (decide (a.start_layer = b.start_layer) && decide (a.end_layer ≤ b.end_layer))

/-- Spec wording of step 3, first half: zero the output buffer. -/
def specZeroOutput (a : Agent) : Except CalcErr Agent := do
  let dl2 ← liftE (a.data_lists[2]?)
  Except.ok { a with data_lists := a.data_lists.set 2 (dl2.map (fun _ => 0)) }

/-- Spec wording of step 3, second half: reallocate and zero the hidden
buffer to exactly `hidden_count` entries. -/
def specRebuildHidden (a : Agent) : Except CalcErr Agent := do
  let _ ← liftE (a.data_lists[1]?)
  let newHidden := List.replicate a.nodes.toNat 0
  Except.ok { a with data_lists := a.data_lists.set 1 newHidden }

/-- Spec wording of step 4: stably sort the connections by
`(start_layer, end_layer)` ascending. -/
def specSortConnections (a : Agent) : Agent :=
  { a with connection_list := sortBy specLe a.connection_list }

/-- The evaluator exactly as worded by the spec (section 4.2): validate and
copy the input, zero the output buffer, reallocate the hidden buffer to
`hidden_count` zero entries, stably sort by `(start_layer, end_layer)`
ascending, accumulate over the sorted connections reading each source's
current (possibly already partially accumulated) value, and return a copy of
the output buffer. -/
def calculateSpec (a : Agent) (input : List ℚ) :
    Except CalcErr (Agent × List ℚ) := do
  let a1 ← setInput a input
  let a2 ← specZeroOutput a1
  let a3 ← specRebuildHidden a2
  let a4 := specSortConnections a3
  let a5 ← accumAll a4 a4.connection_list
  let out ← liftE (a5.data_lists[2]?)
  Except.ok (a5, out)

theorem connLe_eq_specLe : connLe = specLe := by
  funext c d
  have h2 : specLe c d = true ↔
      (c.start_layer < d.start_layer ∨
        (c.start_layer = d.start_layer ∧ c.end_layer ≤ d.end_layer)) := by
    unfold specLe
    simp
  cases hc : connLe c d with
  | true => exact (h2.mpr (connLe_iff.mp hc)).symm
  | false =>
    cases hs : specLe c d with
    | false => rfl
    | true =>
      have hcontra := connLe_iff.mpr (h2.mp hs)
      rw [hc] at hcontra
      exact absurd hcontra (by decide)

theorem zeroOutput_eq_spec : zeroOutput = specZeroOutput := by
  funext a
  unfold zeroOutput specZeroOutput
  cases h : a.data_lists[2]? with
  | none => rfl
  | some dl2 =>
    simp only [liftE, Bind.bind, Except.bind]
    rw [zeroOut_eq, List.map_const']

theorem rebuildHidden_eq_spec : rebuildHidden = specRebuildHidden := by
  funext a
  unfold rebuildHidden specRebuildHidden
  cases h : a.data_lists[1]? with
  | none => rfl
  | some dl1 =>
    simp only [liftE, Bind.bind, Except.bind]
    rw [pushZeros_eq]

theorem sort_connections_eq_spec : sort_connections = specSortConnections := by
  funext a
  unfold sort_connections specSortConnections
  rw [connLe_eq_specLe]

/-- C3: the source evaluator agrees exactly with the spec's step-by-step
description: same input validation and copy, the zeroing loop equals a map to
zero, the clear-and-push loop equals `hidden_count` replicated zeros, the
comparator equals ascending lexicographic `(start_layer, end_layer)` order,
and the accumulation visits the stably sorted connections in order, reading
each source's current possibly partially-accumulated value and returning a
copy of the output buffer. -/
theorem C3_calculate_matches_spec :
    calculate = calculateSpec := by
  funext a input
  unfold calculate calculateSpec
  rw [zeroOutput_eq_spec, rebuildHidden_eq_spec, sort_connections_eq_spec]

theorem calculate_ok_post {a : Agent} {input : List ℚ} {a1 : Agent}
    {out : List ℚ} (h : calculate a input = Except.ok (a1, out)) :
    a1.inputs = a.inputs ∧ a1.nodes = a.nodes ∧
    a1.connections = a.connections ∧ a1.outputs = a.outputs ∧
    a1.activation_funcs = a.activation_funcs ∧
    a1.connection_list = sortBy connLe a.connection_list ∧
    a1.data_lists.length = a.data_lists.length ∧
    0 ≤ a.inputs ∧ input.length = a.inputs.toNat ∧
    a1.data_lists[2]? = some out ∧
    out.length = (a.data_lists[2]?.getD []).length := by
  rw [calculate_eq_ok] at h
  obtain ⟨s1, s2, s3, a5, out2, h1, h2, h3, h5, hout, hp⟩ := h
  rw [Prod.mk.injEq] at hp
  obtain ⟨ha1, ho2⟩ := hp
  subst ha1
  subst ho2
  rw [setInput_eq_ok] at h1
  obtain ⟨hin0, hinlen, hdlpos, hs1⟩ := h1
  subst hs1
  rw [zeroOutput_eq_ok] at h2
  obtain ⟨hlen2a, hs2⟩ := h2
  subst hs2
  rw [rebuildHidden_eq_ok] at h3
  obtain ⟨hlen1a, hs3⟩ := h3
  subst hs3
  simp only [sort_connections] at h5
  obtain ⟨t1, t2, t3, t4, t5, t6, t7, t8⟩ := accumAll_fields h5
  simp only [List.length_set] at t7
  have e2 : ((a.data_lists.set 0 input).set 2
      (zeroOut ((a.data_lists.set 0 input)[2]?.getD [])))[2]? =
      some (zeroOut ((a.data_lists.set 0 input)[2]?.getD [])) :=
    List.getElem?_set_self (by simpa using hlen2a)
  have e3 : (a.data_lists.set 0 input)[2]? = a.data_lists[2]? :=
    List.getElem?_set_ne (by omega)
  have e1 := t8 2
  rw [hout, Option.getD_some,
    List.getElem?_set_ne (by omega : (1 : ℕ) ≠ 2), e2, Option.getD_some,
    zeroOut_eq, List.length_replicate, e3] at e1
  exact ⟨t1, t2, t3, t4, t6, t5, t7, hin0, hinlen, hout, e1⟩

/-- C6: evaluating an unmutated agent twice with the same input yields the
identical result: if the first `calculate` call succeeds with post-state `a1`
and output `out`, the second call on `a1` succeeds with the same post-state
and the same output — no accumulation state leaks between calls. -/
theorem C6_idempotent (a : Agent) (input : List ℚ) (a1 : Agent)
    (out : List ℚ) (hwf : AgentWF a)
    (h : calculate a input = Except.ok (a1, out)) :
    calculate a1 input = Except.ok (a1, out) := by
  obtain ⟨p1, p2, p3, p4, p5, p6, p7, p8, p9, p10, p11⟩ := calculate_ok_post h
  obtain ⟨hin0, hout0, hsync, hdl3, hlen0W, hlen2W, hconnW⟩ := hwf
  rw [calculate_eq_ok] at h
  obtain ⟨s1, s2, s3, a5, out2, h1, h2, h3, h5, hout5, hp⟩ := h
  rw [Prod.mk.injEq] at hp
  obtain ⟨ha1, ho2⟩ := hp
  subst ho2
  subst ha1
  rw [setInput_eq_ok] at h1
  obtain ⟨-, -, -, hs1⟩ := h1
  subst hs1
  rw [zeroOutput_eq_ok] at h2
  obtain ⟨hlen2a, hs2⟩ := h2
  subst hs2
  rw [rebuildHidden_eq_ok] at h3
  obtain ⟨hlen1a, hs3⟩ := h3
  subst hs3
  simp only [sort_connections] at h5
  have len1 : a1.data_lists.length = 3 := by rw [p7]; exact hdl3
  have hZ : zeroOut ((a1.data_lists.set 0 input)[2]?.getD []) =
      zeroOut ((a.data_lists.set 0 input)[2]?.getD []) := by
    have q1 : (a1.data_lists.set 0 input)[2]? = a1.data_lists[2]? :=
      List.getElem?_set_ne (by omega)
    have q2 : (a.data_lists.set 0 input)[2]? = a.data_lists[2]? :=
      List.getElem?_set_ne (by omega)
    rw [q1, q2, p10, Option.getD_some, zeroOut_eq, zeroOut_eq, p11]
  have hLe : sortBy connLe a1.connection_list =
      sortBy connLe a.connection_list := by
    rw [p6, sortBy_idem connLe connLe_total]
  have hDL : ((a1.data_lists.set 0 input).set 2
        (zeroOut ((a1.data_lists.set 0 input)[2]?.getD []))).set 1
        (pushZeros a1.nodes.toNat) =
      ((a.data_lists.set 0 input).set 2
        (zeroOut ((a.data_lists.set 0 input)[2]?.getD []))).set 1
        (pushZeros a.nodes.toNat) := by
    rw [hZ, p2]
    apply List.ext_getElem?
    intro j
    simp only [List.getElem?_set, List.length_set, len1, hdl3]
    split_ifs <;> try rfl
    rw [List.getElem?_eq_none_iff.mpr (by omega),
      List.getElem?_eq_none_iff.mpr (by omega)]
  rw [calculate_eq_ok]
  refine ⟨_, _, _, a1, out,
    setInput_eq_ok.mpr ⟨by rw [p1]; exact p8, by rw [p1]; exact p9,
      by omega, rfl⟩,
    zeroOutput_eq_ok.mpr ⟨by simp only [List.length_set]; omega, rfl⟩,
    rebuildHidden_eq_ok.mpr ⟨by simp only [List.length_set]; omega, rfl⟩,
    ?_, p10, rfl⟩
  simp only [sort_connections]
  rw [hDL, hLe, p1, p2, p3, p4, p5]
  exact h5

/-- Witness for C6 at a concrete agent: the two-input agent evaluated twice
on the same input gives the same post-state and output. -/
theorem C6_idempotent_witness :
    ∃ a1 out, calculate testAgent [1, 2] = Except.ok (a1, out) ∧
      calculate a1 [1, 2] = Except.ok (a1, out) :=
  ⟨_, _, rfl, C6_idempotent testAgent [1, 2] _ _ (by decide) rfl⟩

/-- A concrete one-input agent whose input buffer holds a stale value 5
(as it would after an earlier `calculate` call with input `[5]`). -/
def staleAgent : Agent :=
  { inputs := 1, nodes := 0, connections := 0, outputs := 1,
    data_lists := [[5], [], [0]], connection_list := [],
    activation_funcs := [] }

/-- Counterexample to C9 as stated: `calculate` overwrites the input buffer
with the given input vector, so a part of the agent other than the hidden and
output value buffers changes (the input buffer held `[5]`; after calculating
on input `[3]` it holds `[3]`). -/
theorem C9_cex :
    ∃ b out, calculate staleAgent [3] = Except.ok (b, out) ∧
      b.data_lists[0]? ≠ staleAgent.data_lists[0]? :=
  ⟨_, _, rfl, by decide⟩

/-- C9 amended: a `calculate` call modifies only the agent's value buffers —
the input buffer is overwritten with the given input, the hidden and output
buffers are rebuilt — and the order of the connection list (which is sorted
in place); the four counters, the activation functions, and the connection
list up to that sort are unchanged. -/
theorem C9_frame (a : Agent) (input : List ℚ) (b : Agent) (out : List ℚ)
    (hwf : AgentWF a) (h : calculate a input = Except.ok (b, out)) :
    b.inputs = a.inputs ∧ b.nodes = a.nodes ∧ b.connections = a.connections ∧
    b.outputs = a.outputs ∧ b.activation_funcs = a.activation_funcs ∧
    b.connection_list = sortBy connLe a.connection_list ∧
    b.data_lists.length = a.data_lists.length ∧
    b.data_lists[0]? = some input := by
  obtain ⟨p1, p2, p3, p4, p5, p6, p7, p8, p9, p10, p11⟩ := calculate_ok_post h
  obtain ⟨hin0, hout0, hsync, hdl3, hlen0W, hlen2W, hconnW⟩ := hwf
  refine ⟨p1, p2, p3, p4, p5, p6, p7, ?_⟩
  rw [calculate_eq_ok] at h
  obtain ⟨s1, s2, s3, a5, out2, h1, h2, h3, h5, hout5, hp⟩ := h
  rw [Prod.mk.injEq] at hp
  obtain ⟨ha1, ho2⟩ := hp
  subst ho2
  subst ha1
  rw [setInput_eq_ok] at h1
  obtain ⟨-, -, -, hs1⟩ := h1
  subst hs1
  rw [zeroOutput_eq_ok] at h2
  obtain ⟨hlen2a, hs2⟩ := h2
  subst hs2
  rw [rebuildHidden_eq_ok] at h3
  obtain ⟨hlen1a, hs3⟩ := h3
  subst hs3
  simp only [sort_connections] at h5
  have hcl : ∀ c ∈ sortBy connLe a.connection_list, c.end_layer ≠ 0 := by
    intro c hc
    rw [mem_sortBy] at hc
    obtain ⟨-, hce⟩ := hconnW c hc
    rcases hce with ⟨he, -⟩ | ⟨he, -⟩ <;> omega
  have hunt := accumAll_untouched h5 0 hcl
  rw [hunt]
  show (((a.data_lists.set 0 input).set 2
      (zeroOut ((a.data_lists.set 0 input)[2]?.getD []))).set 1
      (pushZeros a.nodes.toNat))[0]? = some input
  rw [List.getElem?_set_ne (by omega : (1 : ℕ) ≠ 0),
    List.getElem?_set_ne (by omega : (2 : ℕ) ≠ 0),
    List.getElem?_set_self (by omega)]

/-- Witness for the amended C9: on the concrete stale agent the call leaves
counters and connections alone and rewrites the input buffer to the given
input. -/
theorem C9_frame_witness :
    ∃ b out, calculate staleAgent [3] = Except.ok (b, out) ∧
      b.data_lists[0]? = some [3] :=
  ⟨_, _, rfl, (C9_frame staleAgent [3] _ _ (by decide) rfl).2.2.2.2.2.2.2⟩

/-- The facts `reproduce` establishes from parent to child, claim by claim:
the input/output counters and activation functions are inherited, the
bookkeeping invariants and full well-formedness are preserved, and every
child connection either inherits its weight from some parent connection or
carries a freshly drawn weight in `[-max_weight, max_weight)`. -/
def EditOk (max_weight : ℚ) (a b : Agent) : Prop :=
  b.inputs = a.inputs ∧ b.outputs = a.outputs ∧
  b.activation_funcs = a.activation_funcs ∧
  (SyncInv a → SyncInv b) ∧
  (AgentWF a → AgentWF b) ∧
  (∀ c ∈ b.connection_list,
    (∃ c0 ∈ a.connection_list, c.weight = c0.weight) ∨
    (-max_weight ≤ c.weight ∧ c.weight < max_weight))

theorem EditOk_refl (mw : ℚ) (a : Agent) : EditOk mw a a :=
  ⟨rfl, rfl, rfl, id, id, fun c hc => Or.inl ⟨c, hc, rfl⟩⟩

theorem EditOk_trans {mw : ℚ} {a b c : Agent}
    (h1 : EditOk mw a b) (h2 : EditOk mw b c) : EditOk mw a c := by
  obtain ⟨i1, o1, f1, s1, w1, g1⟩ := h1
  obtain ⟨i2, o2, f2, s2, w2, g2⟩ := h2
  refine ⟨i2.trans i1, o2.trans o1, f2.trans f1, fun hs => s2 (s1 hs),
    fun hw => w2 (w1 hw), ?_⟩
  intro d hd
  rcases g2 d hd with ⟨d0, hd0, hw⟩ | hb
  · rcases g1 d0 hd0 with ⟨d1, hd1, hw1⟩ | hb1
    · exact Or.inl ⟨d1, hd1, hw.trans hw1⟩
    · exact Or.inr (hw ▸ hb1)
  · exact Or.inr hb

theorem forall2_mem_right {α β : Type} {R : α → β → Prop} {l : List α}
    {l2 : List β} (h : List.Forall₂ R l l2) :
    ∀ y ∈ l2, ∃ x ∈ l, R x y := by
  induction h with
  | nil => intro y hy; cases hy
  | cons hR hrest ih =>
    intro y hy
    rcases List.mem_cons.mp hy with hy | hy
    · exact ⟨_, List.mem_cons_self .., hy ▸ hR⟩
    · obtain ⟨x, hx, hxy⟩ := ih y hy
      exact ⟨x, List.mem_cons_of_mem _ hx, hxy⟩

theorem liftOpt_tryIntoNat {z : ℤ} {r : Rng} {n : ℕ} {r2 : Rng}
    (h : liftOpt (tryIntoNat z) r = some (n, r2)) :
    0 ≤ z ∧ n = z.toNat ∧ r2 = r := by
  rw [liftOpt_eq_some] at h
  obtain ⟨h1, h2⟩ := h
  rw [tryIntoNat_eq_some] at h1
  exact ⟨h1.1, h1.2, h2⟩

theorem mapRand_forall2 {α β : Type} {f : α → RandM β} {R : α → β → Prop}
    (hf : ∀ x r y r2, f x r = some (y, r2) → R x y) :
    ∀ {l : List α} {r : Rng} {l2 : List β} {r2 : Rng},
      mapRand f l r = some (l2, r2) → List.Forall₂ R l l2 := by
  intro l
  induction l with
  | nil =>
    intro r l2 r2 h
    unfold mapRand at h
    rw [randPure_apply, Option.some.injEq, Prod.mk.injEq] at h
    rw [← h.1]
    exact List.Forall₂.nil
  | cons x xs ih =>
    intro r l2 r2 h
    unfold mapRand at h
    rw [randBind_eq_some] at h
    obtain ⟨y, r1, hy, h⟩ := h
    rw [randBind_eq_some] at h
    obtain ⟨ys, r3, hys, h⟩ := h
    rw [randPure_apply, Option.some.injEq, Prod.mk.injEq] at h
    rw [← h.1]
    exact List.Forall₂.cons (hf x r y r1 hy) (ih hys)

theorem repairStart_ok {nodes inputs : ℤ} {idx : ℕ} {c : Connection}
    {r : Rng} {c2 : Connection} {r2 : Rng}
    (h : repairStart nodes inputs idx c r = some (c2, r2)) :
    c2.end_layer = c.end_layer ∧ c2.end_idx = c.end_idx ∧
    c2.weight = c.weight ∧
    (idx ≤ nodes.toNat →
     (c.start_layer = 0 ∧ c.start_idx < inputs.toNat ∨
      c.start_layer = 1 ∧ c.start_idx < nodes.toNat + 1) →
     (c2.start_layer = 0 ∧ c2.start_idx < inputs.toNat ∨
      c2.start_layer = 1 ∧ c2.start_idx < nodes.toNat)) := by
  unfold repairStart at h
  split at h
  · rename_i hcond
    split at h
    · rename_i heq
      split at h
      · rw [randBind_eq_some] at h
        obtain ⟨j, r1, hj, h⟩ := h
        obtain ⟨hj0, hjlt, -⟩ := genInt_eq_some hj
        rw [randBind_eq_some] at h
        obtain ⟨jn, r3, hjn, h⟩ := h
        obtain ⟨-, hjn2, -⟩ := liftOpt_tryIntoNat hjn
        rw [randPure_apply, Option.some.injEq, Prod.mk.injEq] at h
        rw [← h.1]
        exact ⟨rfl, rfl, rfl, fun hidx hpre => Or.inr ⟨hcond.1, by dsimp only; omega⟩⟩
      · rw [randBind_eq_some] at h
        obtain ⟨j, r1, hj, h⟩ := h
        obtain ⟨hj0, hjlt, -⟩ := genInt_eq_some hj
        rw [randBind_eq_some] at h
        obtain ⟨jn, r3, hjn, h⟩ := h
        obtain ⟨-, hjn2, -⟩ := liftOpt_tryIntoNat hjn
        rw [randPure_apply, Option.some.injEq, Prod.mk.injEq] at h
        rw [← h.1]
        exact ⟨rfl, rfl, rfl, fun hidx hpre => Or.inl ⟨rfl, by dsimp only; omega⟩⟩
    · rename_i hne
      rw [randPure_apply, Option.some.injEq, Prod.mk.injEq] at h
      rw [← h.1]
      refine ⟨rfl, rfl, rfl, fun hidx hpre => Or.inr ⟨hcond.1, ?_⟩⟩
      dsimp only
      rcases hpre with ⟨hl, -⟩ | ⟨-, hsi⟩
      · rw [hcond.1] at hl
        cases hl
      · have h1 := hcond.2
        omega
  · rename_i hcond
    rw [randPure_apply, Option.some.injEq, Prod.mk.injEq] at h
    rw [← h.1]
    refine ⟨rfl, rfl, rfl, fun hidx hpre => ?_⟩
    rcases hpre with ⟨hl, hsi⟩ | ⟨hl, hsi⟩
    · exact Or.inl ⟨hl, hsi⟩
    · refine Or.inr ⟨hl, ?_⟩
      have : ¬ idx ≤ c.start_idx := fun hle => hcond ⟨hl, hle⟩
      omega

theorem repairEnd_ok {nodes outputs : ℤ} {idx : ℕ} {c : Connection}
    {r : Rng} {c2 : Connection} {r2 : Rng}
    (h : repairEnd nodes outputs idx c r = some (c2, r2)) :
    c2.start_layer = c.start_layer ∧ c2.start_idx = c.start_idx ∧
    c2.weight = c.weight ∧
    (idx ≤ nodes.toNat →
     (c.end_layer = 1 ∧ c.end_idx < nodes.toNat + 1 ∨
      c.end_layer = 2 ∧ c.end_idx < outputs.toNat) →
     (c2.end_layer = 1 ∧ c2.end_idx < nodes.toNat ∨
      c2.end_layer = 2 ∧ c2.end_idx < outputs.toNat)) := by
  unfold repairEnd at h
  split at h
  · rename_i hcond
    split at h
    · rename_i heq
      split at h
      · rw [randBind_eq_some] at h
        obtain ⟨j, r1, hj, h⟩ := h
        obtain ⟨hj0, hjlt, -⟩ := genInt_eq_some hj
        rw [randBind_eq_some] at h
        obtain ⟨jn, r3, hjn, h⟩ := h
        obtain ⟨-, hjn2, -⟩ := liftOpt_tryIntoNat hjn
        rw [randPure_apply, Option.some.injEq, Prod.mk.injEq] at h
        rw [← h.1]
        exact ⟨rfl, rfl, rfl, fun hidx hpre => Or.inl ⟨hcond.1, by dsimp only; omega⟩⟩
      · rw [randBind_eq_some] at h
        obtain ⟨j, r1, hj, h⟩ := h
        obtain ⟨hj0, hjlt, -⟩ := genInt_eq_some hj
        rw [randBind_eq_some] at h
        obtain ⟨jn, r3, hjn, h⟩ := h
        obtain ⟨-, hjn2, -⟩ := liftOpt_tryIntoNat hjn
        rw [randPure_apply, Option.some.injEq, Prod.mk.injEq] at h
        rw [← h.1]
        exact ⟨rfl, rfl, rfl, fun hidx hpre => Or.inr ⟨rfl, by dsimp only; omega⟩⟩
    · rename_i hne
      rw [randPure_apply, Option.some.injEq, Prod.mk.injEq] at h
      rw [← h.1]
      refine ⟨rfl, rfl, rfl, fun hidx hpre => Or.inl ⟨hcond.1, ?_⟩⟩
      dsimp only
      rcases hpre with ⟨-, hsi⟩ | ⟨hl, -⟩
      · have h1 := hcond.2
        omega
      · rw [hcond.1] at hl
        cases hl
  · rename_i hcond
    rw [randPure_apply, Option.some.injEq, Prod.mk.injEq] at h
    rw [← h.1]
    refine ⟨rfl, rfl, rfl, fun hidx hpre => ?_⟩
    rcases hpre with ⟨hl, hsi⟩ | ⟨hl, hsi⟩
    · refine Or.inl ⟨hl, ?_⟩
      have : ¬ idx ≤ c.end_idx := fun hle => hcond ⟨hl, hle⟩
      omega
    · exact Or.inr ⟨hl, hsi⟩

theorem repairConn_ok {nodes inputs outputs : ℤ} {idx : ℕ} {c : Connection}
    {r : Rng} {c2 : Connection} {r2 : Rng}
    (h : repairConn nodes inputs outputs idx c r = some (c2, r2)) :
    c2.weight = c.weight ∧
    (0 ≤ nodes → idx ≤ nodes.toNat → ConnWF inputs (nodes + 1) outputs c →
      ConnWF inputs nodes outputs c2) := by
  unfold repairConn at h
  rw [randBind_eq_some] at h
  obtain ⟨c1, r1, h1, h2⟩ := h
  obtain ⟨e1, e2, e3, e4⟩ := repairStart_ok h1
  obtain ⟨f1, f2, f3, f4⟩ := repairEnd_ok h2
  refine ⟨f3.trans e3, fun hn hidx hpre => ?_⟩
  obtain ⟨hpreS, hpreE⟩ := hpre
  have hplus : (nodes + 1).toNat = nodes.toNat + 1 := by omega
  have hS1 : c1.start_layer = 0 ∧ c1.start_idx < inputs.toNat ∨
      c1.start_layer = 1 ∧ c1.start_idx < nodes.toNat := by
    apply e4 hidx
    rcases hpreS with ⟨hl, hsi⟩ | ⟨hl, hsi⟩
    · exact Or.inl ⟨hl, hsi⟩
    · exact Or.inr ⟨hl, by omega⟩
  have hE1 : c1.end_layer = 1 ∧ c1.end_idx < nodes.toNat + 1 ∨
      c1.end_layer = 2 ∧ c1.end_idx < outputs.toNat := by
    rw [e1, e2]
    rcases hpreE with ⟨hl, hsi⟩ | ⟨hl, hsi⟩
    · exact Or.inl ⟨hl, by omega⟩
    · exact Or.inr ⟨hl, hsi⟩
  have hE2 := f4 hidx hE1
  rw [← f1, ← f2] at hS1
  exact ⟨hS1, hE2⟩

theorem editDeleteNode_ok {ch mw : ℚ} {a : Agent} {r : Rng} {b : Agent}
    {r2 : Rng} (h : editDeleteNode ch a r = some (b, r2)) : EditOk mw a b := by
  unfold editDeleteNode at h
  rw [randBind_eq_some] at h
  obtain ⟨u, r1, hu, h⟩ := h
  split at h
  case isFalse =>
    rw [randPure_apply, Option.some.injEq, Prod.mk.injEq] at h
    rw [← h.1]
    exact EditOk_refl mw a
  case isTrue hcond =>
    rw [randBind_eq_some] at h
    obtain ⟨idxZ, r3, hidxZ, h⟩ := h
    obtain ⟨hidx0, hidxlt, -⟩ := genInt_eq_some hidxZ
    rw [randBind_eq_some] at h
    obtain ⟨idx, r4, hidxN, h⟩ := h
    obtain ⟨-, hidxEq, -⟩ := liftOpt_tryIntoNat hidxN
    rw [randBind_eq_some] at h
    obtain ⟨conns, r5, hconns, h⟩ := h
    rw [randBind_eq_some] at h
    obtain ⟨dl1, r6, hdl1, h⟩ := h
    rw [liftOpt_eq_some] at hdl1
    obtain ⟨hdl1some, -⟩ := hdl1
    dsimp only at hdl1some
    rw [randPure_apply, Option.some.injEq, Prod.mk.injEq] at h
    rw [← h.1]
    have hnodes : 0 < a.nodes := hcond.2
    have hF2 : List.Forall₂ (fun c c2 => c2.weight = c.weight ∧
        (ConnWF a.inputs a.nodes a.outputs c →
          ConnWF a.inputs (a.nodes - 1) a.outputs c2))
        a.connection_list conns := by
      apply mapRand_forall2 (fun c rr c2 rr2 hcc => ?_) hconns
      dsimp only at hcc
      obtain ⟨hw, hwf⟩ := repairConn_ok hcc
      refine ⟨hw, fun hc => ?_⟩
      have heq : a.nodes - 1 + 1 = a.nodes := by omega
      exact hwf (by omega) (by omega) (by rw [heq]; exact hc)
    have hlen1 : 1 < a.data_lists.length := by
      rcases List.getElem?_eq_some_iff.mp hdl1some with ⟨hl, -⟩
      exact hl
    have hdl1getD : (a.data_lists[1]?).getD [] = dl1 := by
      rw [hdl1some]
      rfl
    have hbuf1 : ((a.data_lists.set 1 dl1.dropLast)[1]?).getD [] =
        dl1.dropLast := by
      rw [List.getElem?_set_self hlen1]
      rfl
    have hsyncImp : SyncInv a → SyncInv
        { a with nodes := a.nodes - 1, connection_list := conns,
                 data_lists := a.data_lists.set 1 dl1.dropLast } := by
      rintro ⟨s1, s2, s3, s4⟩
      unfold buf at s4
      refine ⟨(by omega : (0 : ℤ) ≤ a.nodes - 1), s2,
        (?_ : a.connections.toNat = conns.length),
        (?_ : (a.nodes - 1).toNat =
          ((a.data_lists.set 1 dl1.dropLast)[1]?.getD []).length)⟩
      · rw [s3, hF2.length_eq]
      · rw [hbuf1, List.length_dropLast, ← hdl1getD]
        omega
    refine ⟨rfl, rfl, rfl, hsyncImp, ?_, ?_⟩
    · rintro ⟨w1, w2, wsync, wdl3, wl0, wl2, wconn⟩
      refine ⟨w1, w2, hsyncImp wsync, ?_, ?_, ?_, ?_⟩
      · show (a.data_lists.set 1 dl1.dropLast).length = 3
        rw [List.length_set]
        exact wdl3
      · show (((a.data_lists.set 1 dl1.dropLast)[0]?).getD []).length =
          a.inputs.toNat
        rw [List.getElem?_set_ne (by omega)]
        exact wl0
      · show (((a.data_lists.set 1 dl1.dropLast)[2]?).getD []).length =
          a.outputs.toNat
        rw [List.getElem?_set_ne (by omega)]
        exact wl2
      · intro c2 hc2
        obtain ⟨c, hc, hR⟩ := forall2_mem_right hF2 c2 hc2
        exact hR.2 (wconn c hc)
    · intro c2 hc2
      obtain ⟨c, hc, hR⟩ := forall2_mem_right hF2 c2 hc2
      exact Or.inl ⟨c, hc, hR.1⟩

theorem ConnWF_mono {i n o : ℤ} {c : Connection}
    (h : ConnWF i n o c) : ConnWF i (n + 1) o c := by
  obtain ⟨hs, he⟩ := h
  constructor
  · rcases hs with ⟨hl, hi⟩ | ⟨hl, hi⟩
    · exact Or.inl ⟨hl, hi⟩
    · exact Or.inr ⟨hl, by omega⟩
  · rcases he with ⟨hl, hi⟩ | ⟨hl, hi⟩
    · exact Or.inl ⟨hl, by omega⟩
    · exact Or.inr ⟨hl, hi⟩

theorem editAddNode_ok {ch mw : ℚ} {a : Agent} {r : Rng} {b : Agent}
    {r2 : Rng} (h : editAddNode ch a r = some (b, r2)) : EditOk mw a b := by
  unfold editAddNode at h
  rw [randBind_eq_some] at h
  obtain ⟨u, r1, hu, h⟩ := h
  split at h
  case isFalse =>
    rw [randPure_apply, Option.some.injEq, Prod.mk.injEq] at h
    rw [← h.1]
    exact EditOk_refl mw a
  case isTrue hcond =>
    rw [randBind_eq_some] at h
    obtain ⟨dl1, r3, hdl1, h⟩ := h
    rw [liftOpt_eq_some] at hdl1
    obtain ⟨hdl1some, -⟩ := hdl1
    rw [randPure_apply, Option.some.injEq, Prod.mk.injEq] at h
    rw [← h.1]
    have hlen1 : 1 < a.data_lists.length := by
      rcases List.getElem?_eq_some_iff.mp hdl1some with ⟨hl, -⟩
      exact hl
    have hdl1getD : (a.data_lists[1]?).getD [] = dl1 := by
      rw [hdl1some]
      rfl
    have hbuf1 : ((a.data_lists.set 1 (dl1 ++ [0]))[1]?).getD [] =
        dl1 ++ [0] := by
      rw [List.getElem?_set_self hlen1]
      rfl
    have hsyncImp : SyncInv a → SyncInv
        { a with nodes := a.nodes + 1,
                 data_lists := a.data_lists.set 1 (dl1 ++ [0]) } := by
      rintro ⟨s1, s2, s3, s4⟩
      unfold buf at s4
      refine ⟨(by omega : (0 : ℤ) ≤ a.nodes + 1), s2, s3,
        (?_ : (a.nodes + 1).toNat =
          ((a.data_lists.set 1 (dl1 ++ [0]))[1]?.getD []).length)⟩
      rw [hbuf1, List.length_append, ← hdl1getD]
      simp only [List.length_cons, List.length_nil]
      omega
    refine ⟨rfl, rfl, rfl, hsyncImp, ?_, ?_⟩
    · rintro ⟨w1, w2, wsync, wdl3, wl0, wl2, wconn⟩
      refine ⟨w1, w2, hsyncImp wsync, ?_, ?_, ?_, ?_⟩
      · show (a.data_lists.set 1 (dl1 ++ [0])).length = 3
        rw [List.length_set]
        exact wdl3
      · show (((a.data_lists.set 1 (dl1 ++ [0]))[0]?).getD []).length =
          a.inputs.toNat
        rw [List.getElem?_set_ne (by omega)]
        exact wl0
      · show (((a.data_lists.set 1 (dl1 ++ [0]))[2]?).getD []).length =
          a.outputs.toNat
        rw [List.getElem?_set_ne (by omega)]
        exact wl2
      · intro c hc
        exact ConnWF_mono (wconn c hc)
    · intro c hc
      exact Or.inl ⟨c, hc, rfl⟩

theorem editDeleteConnection_ok {ch mw : ℚ} {a : Agent} {r : Rng} {b : Agent}
    {r2 : Rng} (h : editDeleteConnection ch a r = some (b, r2)) :
    EditOk mw a b := by
  unfold editDeleteConnection at h
  rw [randBind_eq_some] at h
  obtain ⟨u, r1, hu, h⟩ := h
  split at h
  case isFalse =>
    rw [randPure_apply, Option.some.injEq, Prod.mk.injEq] at h
    rw [← h.1]
    exact EditOk_refl mw a
  case isTrue hcond =>
    rw [randBind_eq_some] at h
    obtain ⟨idxZ, r3, hidxZ, h⟩ := h
    obtain ⟨hidx0, hidxlt, -⟩ := genInt_eq_some hidxZ
    rw [randBind_eq_some] at h
    obtain ⟨idx, r4, hidxN, h⟩ := h
    obtain ⟨-, hidxEq, -⟩ := liftOpt_tryIntoNat hidxN
    split at h
    case isFalse => exact absurd h (by unfold panicRand; simp)
    case isTrue hlt =>
      rw [randPure_apply, Option.some.injEq, Prod.mk.injEq] at h
      rw [← h.1]
      have hsyncImp : SyncInv a → SyncInv
          { a with connections := a.connections - 1,
                   connection_list := a.connection_list.eraseIdx idx } := by
        rintro ⟨s1, s2, s3, s4⟩
        refine ⟨s1, (by omega : (0 : ℤ) ≤ a.connections - 1),
          (?_ : (a.connections - 1).toNat =
            (a.connection_list.eraseIdx idx).length), s4⟩
        rw [List.length_eraseIdx_of_lt hlt]
        omega
      refine ⟨rfl, rfl, rfl, hsyncImp, ?_, ?_⟩
      · rintro ⟨w1, w2, wsync, wdl3, wl0, wl2, wconn⟩
        refine ⟨w1, w2, hsyncImp wsync, wdl3, wl0, wl2, ?_⟩
        intro c hc
        exact wconn c (List.mem_of_mem_eraseIdx hc)
      · intro c hc
        exact Or.inl ⟨c, List.mem_of_mem_eraseIdx hc, rfl⟩

theorem editChangeWeight_ok {ch mw : ℚ} {a : Agent} {r : Rng} {b : Agent}
    {r2 : Rng} (h : editChangeWeight ch mw a r = some (b, r2)) :
    EditOk mw a b := by
  unfold editChangeWeight at h
  rw [randBind_eq_some] at h
  obtain ⟨u, r1, hu, h⟩ := h
  split at h
  case isFalse =>
    rw [randPure_apply, Option.some.injEq, Prod.mk.injEq] at h
    rw [← h.1]
    exact EditOk_refl mw a
  case isTrue hcond =>
    rw [randBind_eq_some] at h
    obtain ⟨idxZ, r3, hidxZ, h⟩ := h
    rw [randBind_eq_some] at h
    obtain ⟨idx, r4, hidxN, h⟩ := h
    rw [randBind_eq_some] at h
    obtain ⟨c0, r5, hc0, h⟩ := h
    rw [liftOpt_eq_some] at hc0
    obtain ⟨hc0some, -⟩ := hc0
    have hc0mem : c0 ∈ a.connection_list := List.getElem?_mem hc0some
    rw [randBind_eq_some] at h
    obtain ⟨w, r6, hw, h⟩ := h
    obtain ⟨hw1, hw2, -⟩ := genFloat_eq_some hw
    rw [randPure_apply, Option.some.injEq, Prod.mk.injEq] at h
    rw [← h.1]
    have hsyncImp : SyncInv a → SyncInv
        { a with connection_list :=
            a.connection_list.set idx { c0 with weight := w } } := by
      rintro ⟨s1, s2, s3, s4⟩
      exact ⟨s1, s2,
        (by rw [List.length_set]; exact s3 : a.connections.toNat =
          (a.connection_list.set idx { c0 with weight := w }).length), s4⟩
    refine ⟨rfl, rfl, rfl, hsyncImp, ?_, ?_⟩
    · rintro ⟨w1, w2, wsync, wdl3, wl0, wl2, wconn⟩
      refine ⟨w1, w2, hsyncImp wsync, wdl3, wl0, wl2, ?_⟩
      intro c hc
      rcases List.mem_or_eq_of_mem_set hc with hc | hc
      · exact wconn c hc
      · rw [hc]
        exact wconn c0 hc0mem
    · intro c hc
      rcases List.mem_or_eq_of_mem_set hc with hc | hc
      · exact Or.inl ⟨c, hc, rfl⟩
      · rw [hc]
        exact Or.inr ⟨hw1, hw2⟩

theorem editNewConnection_ok {ch mw : ℚ} {a : Agent} {r : Rng} {b : Agent}
    {r2 : Rng} (h : editNewConnection ch mw a r = some (b, r2)) :
    EditOk mw a b := by
  unfold editNewConnection at h
  rw [randBind_eq_some] at h
  obtain ⟨u, r1, hu, h⟩ := h
  split at h
  case isFalse =>
    rw [randPure_apply, Option.some.injEq, Prod.mk.injEq] at h
    rw [← h.1]
    exact EditOk_refl mw a
  case isTrue hcond =>
    have hsyncImp : ∀ c : Connection, SyncInv a → SyncInv
        { a with connections := a.connections + 1,
                 connection_list := a.connection_list ++ [c] } := by
      rintro c ⟨s1, s2, s3, s4⟩
      refine ⟨s1, (by omega : (0 : ℤ) ≤ a.connections + 1),
        (?_ : (a.connections + 1).toNat =
          (a.connection_list ++ [c]).length), s4⟩
      rw [List.length_append]
      simp only [List.length_cons, List.length_nil]
      omega
    have hrest : ∀ c : Connection,
        ConnWF a.inputs a.nodes a.outputs c →
        (-mw ≤ c.weight ∧ c.weight < mw) →
        EditOk mw a { a with connections := a.connections + 1,
                             connection_list := a.connection_list ++ [c] } := by
      intro c hcwf hcw
      refine ⟨rfl, rfl, rfl, hsyncImp c, ?_, ?_⟩
      · rintro ⟨w1, w2, wsync, wdl3, wl0, wl2, wconn⟩
        refine ⟨w1, w2, hsyncImp c wsync, wdl3, wl0, wl2, ?_⟩
        intro d hd
        rcases List.mem_append.mp hd with hd | hd
        · exact wconn d hd
        · rw [List.mem_singleton.mp hd]
          exact hcwf
      · intro d hd
        rcases List.mem_append.mp hd with hd | hd
        · exact Or.inl ⟨d, hd, rfl⟩
        · rw [List.mem_singleton.mp hd]
          exact Or.inr hcw
    dsimp only at h
    split at h
    case isTrue hpos =>
      rw [randBind_eq_some] at h
      obtain ⟨sl, r3, hsl, h⟩ := h
      obtain ⟨hsl0, hsl1, -⟩ := genNatIncl_eq_some hsl
      split at h <;> rename_i hb <;>
        (rw [randBind_eq_some] at h
         obtain ⟨si, r4, hsi, h⟩ := h
         obtain ⟨hq1, hq2, -⟩ := genInt_eq_some hsi
         rw [randBind_eq_some] at h
         obtain ⟨el, r5, hel, h⟩ := h
         obtain ⟨hel1, hel2, -⟩ := genNatIncl_eq_some hel
         split at h <;> rename_i hbe <;>
           (rw [randBind_eq_some] at h
            obtain ⟨ei, r6, hei, h⟩ := h
            obtain ⟨hq3, hq4, -⟩ := genInt_eq_some hei
            rw [randBind_eq_some] at h
            obtain ⟨sin, r7, hsin, h⟩ := h
            obtain ⟨hsi0, hsinEq, -⟩ := liftOpt_tryIntoNat hsin
            rw [randBind_eq_some] at h
            obtain ⟨ein, r8, hein, h⟩ := h
            obtain ⟨hei0, heinEq, -⟩ := liftOpt_tryIntoNat hein
            rw [randBind_eq_some] at h
            obtain ⟨w, r9, hw, h⟩ := h
            obtain ⟨hwlo, hwhi, -⟩ := genFloat_eq_some hw
            rw [randPure_apply, Option.some.injEq, Prod.mk.injEq] at h
            rw [← h.1]
            refine hrest _ ⟨?_, ?_⟩ ⟨hwlo, hwhi⟩ <;> dsimp only))
      · exact Or.inl ⟨hb, by omega⟩
      · exact Or.inl ⟨hbe, by omega⟩
      · exact Or.inl ⟨hb, by omega⟩
      · exact Or.inr ⟨by omega, by omega⟩
      · exact Or.inr ⟨by omega, by omega⟩
      · exact Or.inl ⟨hbe, by omega⟩
      · exact Or.inr ⟨by omega, by omega⟩
      · exact Or.inr ⟨by omega, by omega⟩
    case isFalse hpos =>
      rw [randBind_eq_some] at h
      obtain ⟨si, r3, hsi, h⟩ := h
      obtain ⟨hq1, hq2, -⟩ := genInt_eq_some hsi
      rw [randBind_eq_some] at h
      obtain ⟨ei, r4, hei, h⟩ := h
      obtain ⟨hq3, hq4, -⟩ := genInt_eq_some hei
      rw [randBind_eq_some] at h
      obtain ⟨sin, r5, hsin, h⟩ := h
      obtain ⟨hsi0, hsinEq, -⟩ := liftOpt_tryIntoNat hsin
      rw [randBind_eq_some] at h
      obtain ⟨ein, r6, hein, h⟩ := h
      obtain ⟨hei0, heinEq, -⟩ := liftOpt_tryIntoNat hein
      rw [randBind_eq_some] at h
      obtain ⟨w, r7, hw, h⟩ := h
      obtain ⟨hwlo, hwhi, -⟩ := genFloat_eq_some hw
      rw [randPure_apply, Option.some.injEq, Prod.mk.injEq] at h
      rw [← h.1]
      refine hrest ⟨0, 2, sin, ein, w⟩ ⟨?_, ?_⟩ ⟨hwlo, hwhi⟩ <;> dsimp only
      · exact Or.inl ⟨rfl, by omega⟩
      · exact Or.inr ⟨rfl, by omega⟩

theorem randPure_bind {α β : Type} (a : α) (f : α → RandM β) (r : Rng) :
    (pure a >>= f) r = f a r := rfl

theorem editChangeConnection_ok {ch mw : ℚ} {a : Agent} {r : Rng} {b : Agent}
    {r2 : Rng} (h : editChangeConnection ch a r = some (b, r2)) :
    EditOk mw a b := by
  unfold editChangeConnection at h
  rw [randBind_eq_some] at h
  obtain ⟨u, r1, hu, h⟩ := h
  split at h
  case isFalse =>
    rw [randPure_apply, Option.some.injEq, Prod.mk.injEq] at h
    rw [← h.1]
    exact EditOk_refl mw a
  case isTrue hcond =>
    rw [randBind_eq_some] at h
    obtain ⟨idxZ, r3, hidxZ, h⟩ := h
    rw [randBind_eq_some] at h
    obtain ⟨idx, r4, hidxN, h⟩ := h
    rw [randBind_eq_some] at h
    obtain ⟨c0, r5, hc0, h⟩ := h
    rw [liftOpt_eq_some] at hc0
    obtain ⟨hc0some, -⟩ := hc0
    have hc0mem : c0 ∈ a.connection_list := List.getElem?_mem hc0some
    have hrest : ∀ cN : Connection,
        ConnWF a.inputs a.nodes a.outputs cN → cN.weight = c0.weight →
        EditOk mw a
          { a with connection_list := a.connection_list.set idx cN } := by
      intro cN hwfN hwt
      have hsyncImp : SyncInv a → SyncInv
          { a with connection_list := a.connection_list.set idx cN } := by
        rintro ⟨s1, s2, s3, s4⟩
        exact ⟨s1, s2,
          (by rw [List.length_set]; exact s3 : a.connections.toNat =
            (a.connection_list.set idx cN).length), s4⟩
      refine ⟨rfl, rfl, rfl, hsyncImp, ?_, ?_⟩
      · rintro ⟨w1, w2, wsync, wdl3, wl0, wl2, wconn⟩
        refine ⟨w1, w2, hsyncImp wsync, wdl3, wl0, wl2, ?_⟩
        intro d hd
        rcases List.mem_or_eq_of_mem_set hd with hd | hd
        · exact wconn d hd
        · rw [hd]
          exact hwfN
      · intro d hd
        rcases List.mem_or_eq_of_mem_set hd with hd | hd
        · exact Or.inl ⟨d, hd, rfl⟩
        · rw [hd]
          exact Or.inl ⟨c0, hc0mem, hwt⟩
    split at h
    case isTrue hpos =>
      rw [randBind_eq_some] at h
      obtain ⟨nsl, r6, hnsl, h⟩ := h
      obtain ⟨hnsl0, hnsl1, -⟩ := genNatIncl_eq_some hnsl
      rw [randBind_eq_some] at h
      obtain ⟨nel, r7, hnel, h⟩ := h
      obtain ⟨hnel1, hnel2, -⟩ := genNatIncl_eq_some hnel
      rw [randPure_bind] at h
      dsimp only at h
      split at h <;> rename_i hsb <;>
        (rw [randBind_eq_some] at h
         obtain ⟨si, r8, hsi, h⟩ := h
         obtain ⟨hq1, hq2, -⟩ := genInt_eq_some hsi
         rw [randBind_eq_some] at h
         obtain ⟨sin, r9, hsin, h⟩ := h
         obtain ⟨hsi0, hsinEq, -⟩ := liftOpt_tryIntoNat hsin
         rw [randPure_bind] at h
         dsimp only at h
         split at h <;> rename_i heb <;>
           (rw [randBind_eq_some] at h
            obtain ⟨ei, r10, hei, h⟩ := h
            obtain ⟨hq3, hq4, -⟩ := genInt_eq_some hei
            rw [randBind_eq_some] at h
            obtain ⟨ein, r11, hein, h⟩ := h
            obtain ⟨hei0, heinEq, -⟩ := liftOpt_tryIntoNat hein
            rw [randPure_bind] at h
            rw [randPure_apply, Option.some.injEq, Prod.mk.injEq] at h
            rw [← h.1]
            refine hrest _ ⟨?_, ?_⟩ rfl <;> dsimp only))
      · exact Or.inl ⟨hsb, by omega⟩
      · exact Or.inl ⟨heb, by omega⟩
      · exact Or.inl ⟨hsb, by omega⟩
      · exact Or.inr ⟨by omega, by omega⟩
      · exact Or.inr ⟨by omega, by omega⟩
      · exact Or.inl ⟨heb, by omega⟩
      · exact Or.inr ⟨by omega, by omega⟩
      · exact Or.inr ⟨by omega, by omega⟩
    case isFalse hpos =>
      rw [randPure_bind] at h
      dsimp only at h
      split at h <;> rename_i hsb
      case isFalse => exact absurd rfl hsb
      case isTrue =>
        rw [randBind_eq_some] at h
        obtain ⟨si, r8, hsi, h⟩ := h
        obtain ⟨hq1, hq2, -⟩ := genInt_eq_some hsi
        rw [randBind_eq_some] at h
        obtain ⟨sin, r9, hsin, h⟩ := h
        obtain ⟨hsi0, hsinEq, -⟩ := liftOpt_tryIntoNat hsin
        rw [randPure_bind] at h
        dsimp only at h
        split at h <;> rename_i heb
        case isTrue => exact absurd heb (by decide)
        case isFalse =>
          rw [randBind_eq_some] at h
          obtain ⟨ei, r10, hei, h⟩ := h
          obtain ⟨hq3, hq4, -⟩ := genInt_eq_some hei
          rw [randBind_eq_some] at h
          obtain ⟨ein, r11, hein, h⟩ := h
          obtain ⟨hei0, heinEq, -⟩ := liftOpt_tryIntoNat hein
          rw [randPure_bind] at h
          rw [randPure_apply, Option.some.injEq, Prod.mk.injEq] at h
          rw [← h.1]
          refine hrest _ ⟨?_, ?_⟩ rfl <;> dsimp only
          · exact Or.inl ⟨rfl, by omega⟩
          · exact Or.inr ⟨rfl, by omega⟩

theorem reproduce_ok {a : Agent} {n1 n2 n3 n4 n5 n6 mw : ℚ} {r : Rng}
    {b : Agent} {r2 : Rng}
    (h : reproduce a n1 n2 n3 n4 n5 n6 mw r = some (b, r2)) :
    EditOk mw a b := by
  unfold reproduce at h
  rw [randBind_eq_some] at h
  obtain ⟨a1, q1, h1, h⟩ := h
  rw [randBind_eq_some] at h
  obtain ⟨a2, q2, h2, h⟩ := h
  rw [randBind_eq_some] at h
  obtain ⟨a3, q3, h3, h⟩ := h
  rw [randBind_eq_some] at h
  obtain ⟨a4, q4, h4, h⟩ := h
  rw [randBind_eq_some] at h
  obtain ⟨a5, q5, h5, h⟩ := h
  exact EditOk_trans (editDeleteNode_ok h1) (EditOk_trans (editAddNode_ok h2)
    (EditOk_trans (editDeleteConnection_ok h3)
      (EditOk_trans (editNewConnection_ok h4)
        (EditOk_trans (editChangeConnection_ok h5) (editChangeWeight_ok h)))))

theorem create_agents_wf {amount inputs outputs : ℤ} {funcs : List (ℚ → ℚ)}
    {agents : List Agent}
    (h : create_agents amount inputs outputs funcs = some agents) :
    ∀ a ∈ agents, AgentWF a := by
  unfold create_agents at h
  split at h
  · rw [Option.some.injEq] at h
    rw [← h]
    intro a ha
    cases ha
  · cases hti : tryIntoNat inputs with
    | none => rw [hti] at h; exact absurd h (by simp)
    | some ni =>
      cases hto : tryIntoNat outputs with
      | none => rw [hti, hto] at h; exact absurd h (by simp)
      | some no =>
        rw [hti, hto, Option.some.injEq] at h
        rw [tryIntoNat_eq_some] at hti hto
        intro a ha
        rw [← h] at ha
        rw [List.eq_of_mem_replicate ha]
        refine ⟨hti.1, hto.1, ⟨le_refl 0, le_refl 0, rfl, rfl⟩, rfl, ?_, ?_, ?_⟩
        · show (List.replicate ni (0 : ℚ)).length = inputs.toNat
          rw [List.length_replicate, hti.2]
        · show (List.replicate no (0 : ℚ)).length = outputs.toNat
          rw [List.length_replicate, hto.2]
        · intro c hc
          cases hc

theorem reproduceChain_wf : ∀ (steps : List RepCall) (a b : Agent),
    AgentWF a → reproduceChain a steps = some b → AgentWF b := by
  intro steps
  induction steps with
  | nil =>
    intro a b hwf h
    have h2 : some a = some b := h
    rw [Option.some.injEq] at h2
    rw [← h2]
    exact hwf
  | cons s rest ih =>
    intro a b hwf h
    have h2 : Option.bind (reproduce a s.new_node_chance s.new_connection_chance
        s.delete_node_chance s.delete_connection_chance s.change_weight_chance
        s.change_connection_chance s.max_weight s.rng)
        (fun p => reproduceChain p.1 rest) = some b := h
    rw [Option.bind_eq_some] at h2
    obtain ⟨p, hp, hrest⟩ := h2
    exact ih p.1 b ((reproduce_ok hp).2.2.2.2.1 hwf) hrest

/-- C1: every agent obtained from `create_agents` and transformed by any
finite sequence of `reproduce` calls (with any rates, any randomness, any
gate outcomes) has no dangling connection: every connection's `start_idx` is
inside its start layer's value buffer and its `end_idx` inside its end
layer's value buffer. -/
theorem C1_no_dangling (amount inputs outputs : ℤ) (funcs : List (ℚ → ℚ))
    (agents : List Agent)
    (hc : create_agents amount inputs outputs funcs = some agents)
    (a0 : Agent) (ha0 : a0 ∈ agents) (steps : List RepCall) (b : Agent)
    (hchain : reproduceChain a0 steps = some b) :
    ∀ c ∈ b.connection_list,
      c.start_idx < (buf b c.start_layer).length ∧
      c.end_idx < (buf b c.end_layer).length := by
  have hwf0 := create_agents_wf hc a0 ha0
  have hwfb := reproduceChain_wf steps a0 b hwf0 hchain
  obtain ⟨hin0, hout0, ⟨s1, s2, s3, s4⟩, hdl3, hl0, hl2, hconn⟩ := hwfb
  intro c hc2
  obtain ⟨hs, he⟩ := hconn c hc2
  constructor
  · rcases hs with ⟨hl, hi⟩ | ⟨hl, hi⟩
    · rw [hl, hl0]
      exact hi
    · rw [hl, ← s4]
      exact hi
  · rcases he with ⟨hl, hi⟩ | ⟨hl, hi⟩
    · rw [hl, ← s4]
      exact hi
    · rw [hl, hl2]
      exact hi

/-- C2: after a successful `reproduce` call on a parent whose count fields
agree with its structures (connection count equals the connection-list
length, hidden count equals the hidden-buffer length, both counts
non-negative as for every `i32`-counted real agent), the child satisfies the
same equalities. -/
theorem C2_counts_sync (a : Agent) (n1 n2 n3 n4 n5 n6 mw : ℚ) (r : Rng)
    (b : Agent) (r2 : Rng) (hsync : SyncInv a)
    (h : reproduce a n1 n2 n3 n4 n5 n6 mw r = some (b, r2)) :
    b.connections.toNat = b.connection_list.length ∧
    b.nodes.toNat = (buf b 1).length := by
  obtain ⟨-, -, -, hs, -, -⟩ := reproduce_ok h
  obtain ⟨-, -, q3, q4⟩ := hs hsync
  exact ⟨q3, q4⟩

/-- Witness for C2 at a concrete parent and randomness: an all-gates-firing
reproduce call on the two-input agent keeps counts in sync. -/
theorem C2_counts_sync_witness :
    ∃ b r2, reproduce testAgent 1 1 1 1 1 1 3 zeroRng = some (b, r2) ∧
      b.connections.toNat = b.connection_list.length ∧
      b.nodes.toNat = (buf b 1).length :=
  ⟨_, _, rfl, C2_counts_sync testAgent 1 1 1 1 1 1 3 zeroRng _ _
    (by decide) rfl⟩

/-- C8: `reproduce` takes the parent by shared reference, so the method call
leaves the parent exactly as it was and returns a fresh child whose
input and output counts equal the parent's. -/
theorem C8_parent_unchanged (a : Agent) (n1 n2 n3 n4 n5 n6 mw : ℚ) (r : Rng)
    (b : Agent) (r2 : Rng)
    (h : reproduce a n1 n2 n3 n4 n5 n6 mw r = some (b, r2)) :
    (reproduceMethod a n1 n2 n3 n4 n5 n6 mw r).1 = a ∧
    (reproduceMethod a n1 n2 n3 n4 n5 n6 mw r).2 = some (b, r2) ∧
    b.inputs = a.inputs ∧ b.outputs = a.outputs := by
  obtain ⟨q1, q2, -, -, -, -⟩ := reproduce_ok h
  exact ⟨rfl, h, q1, q2⟩

/-- Witness for C8 at a concrete parent and randomness. -/
theorem C8_parent_unchanged_witness :
    ∃ b r2, reproduce testAgent 1 1 1 1 1 1 3 zeroRng = some (b, r2) ∧
      (reproduceMethod testAgent 1 1 1 1 1 1 3 zeroRng).1 = testAgent ∧
      b.inputs = testAgent.inputs ∧ b.outputs = testAgent.outputs := by
  refine ⟨_, _, rfl, ?_⟩
  have h := C8_parent_unchanged testAgent 1 1 1 1 1 1 3 zeroRng _ _ rfl
  exact ⟨h.1, h.2.2.1, h.2.2.2⟩

/-- The child produced from `testAgent` by an all-gates-firing `reproduce`
on the all-zero stream. -/
def testChild : Agent :=
  { inputs := 2, nodes := 1, connections := 1, outputs := 1,
    data_lists := [[0, 0], [0], [0]],
    connection_list := [⟨0, 2, 0, 0, 0⟩], activation_funcs := [] }

set_option maxRecDepth 10000 in
/-- Witness for C1 at a concrete lineage: one created agent, one
all-gates-firing reproduce call, and the resulting connection is in
bounds. -/
theorem C1_no_dangling_witness :
    create_agents 1 2 1 [] = some [testAgent] ∧
    reproduceChain testAgent [⟨1, 1, 1, 1, 1, 1, 3, zeroRng⟩] =
      some testChild ∧
    ∀ c ∈ testChild.connection_list,
      c.start_idx < (buf testChild c.start_layer).length ∧
      c.end_idx < (buf testChild c.end_layer).length :=
  ⟨rfl, rfl, C1_no_dangling 1 2 1 [] [testAgent] rfl testAgent
    (List.mem_singleton.mpr rfl) [⟨1, 1, 1, 1, 1, 1, 3, zeroRng⟩]
    testChild rfl⟩

/-- A zero-input, one-output agent, exactly as `create_agents 1 0 1 []`
produces it. -/
def zeroInAgent : Agent :=
  { inputs := 0, nodes := 0, connections := 0, outputs := 1,
    data_lists := [[], [], [0]], connection_list := [],
    activation_funcs := [] }

/-- Counterexample to C7 as stated: on a validly constructed parent with
zero inputs (and zero hidden nodes), firing the add-connection gate draws
from the empty range `0..0`, which panics — `reproduce` is not total over
all validly constructed parents. -/
theorem C7_cex :
    create_agents 1 0 1 [] = some [zeroInAgent] ∧
    reproduce zeroInAgent 0 1 0 0 0 0 3 zeroRng = none :=
  ⟨rfl, rfl⟩

/-- The set of weights the weight draw `gen_range(-max_weight..max_weight)`
(src/lib.rs lines 197, 217, 265) can produce. -/
def drawableWeight (max_weight w : ℚ) : Prop :=
  ∃ r r2, genFloat (-max_weight) max_weight r = some (w, r2)

/-- Counterexample to C10 as stated: the weight draw uses the half-open
range `-max_weight..max_weight`, so the upper endpoint `max_weight` itself
(here `3`) is never drawable — the interval is not closed. -/
theorem C10_cex : ¬ drawableWeight 3 3 := by
  rintro ⟨r, r2, hdraw⟩
  obtain ⟨-, hlt, -⟩ := genFloat_eq_some hdraw
  exact absurd hlt (lt_irrefl 3)

/-- C10 amended: every weight `reproduce` stores is either inherited from a
parent connection or freshly drawn, and a freshly drawn weight lies in the
half-open interval `[-max_weight, max_weight)`; conversely every value of
that half-open interval is drawable. -/
theorem C10_weight_range (mw : ℚ) :
    (∀ a n1 n2 n3 n4 n5 n6 r b r2,
      reproduce a n1 n2 n3 n4 n5 n6 mw r = some (b, r2) →
      ∀ c ∈ b.connection_list,
        (∃ c0 ∈ a.connection_list, c.weight = c0.weight) ∨
        (-mw ≤ c.weight ∧ c.weight < mw)) ∧
    (∀ w, -mw ≤ w → w < mw → drawableWeight mw w) := by
  constructor
  · intro a n1 n2 n3 n4 n5 n6 r b r2 h c hc
    exact (reproduce_ok h).2.2.2.2.2 c hc
  · intro w hlo hhi
    exact ⟨⟨fun _ => w, 0⟩, ⟨fun _ => w, 1⟩, genFloat_of_mem 0 hlo hhi⟩

set_option maxRecDepth 10000 in
/-- Witness for the amended C10: the fresh connection of the concrete
reproduce trace carries a weight inside `[-3, 3)`, and the value `2` of that
interval is drawable. -/
theorem C10_weight_range_witness :
    ((∃ c0 ∈ testAgent.connection_list,
        (⟨0, 2, 0, 0, 0⟩ : Connection).weight = c0.weight) ∨
      (-(3 : ℚ) ≤ (⟨0, 2, 0, 0, 0⟩ : Connection).weight ∧
        (⟨0, 2, 0, 0, 0⟩ : Connection).weight < 3)) ∧
    drawableWeight 3 2 :=
  ⟨(C10_weight_range 3).1 testAgent 1 1 1 1 1 1 zeroRng testChild
      ⟨fun _ => 0, 18⟩ rfl ⟨0, 2, 0, 0, 0⟩ (by decide),
    (C10_weight_range 3).2 2 (by norm_num) (by norm_num)⟩

theorem randBind_some_step {α β : Type} {m : RandM α} {f : α → RandM β}
    {r : Rng} {a : α} {r1 : Rng} (h : m r = some (a, r1)) :
    (m >>= f) r = f a r1 := by
  show (match m r with | none => none | some (a, r2) => f a r2) = f a r1
  rw [h]

theorem tryIntoNat_isSome {z : ℤ} (h : 0 ≤ z) :
    tryIntoNat z = some z.toNat := by
  unfold tryIntoNat
  rw [if_pos h]

theorem liftOpt_some_apply {α : Type} (x : α) (r : Rng) :
    liftOpt (some x) r = some (x, r) := rfl

theorem liftOpt_tryIntoNat_step {z : ℤ} (h : 0 ≤ z) (r : Rng) :
    liftOpt (tryIntoNat z) r = some (z.toNat, r) := by
  rw [tryIntoNat_isSome h, liftOpt_some_apply]

theorem repairStart_isSome (nodes inputs : ℤ) (idx : ℕ) (c : Connection)
    (hin : 0 < inputs) (r : Rng) :
    ∃ c2 r2, repairStart nodes inputs idx c r = some (c2, r2) := by
  unfold repairStart
  by_cases h1 : c.start_layer = 1 ∧ idx ≤ c.start_idx
  · rw [if_pos h1]
    by_cases h2 : c.start_idx = idx
    · rw [if_pos h2]
      by_cases h3 : 0 < nodes
      · rw [if_pos h3]
        obtain ⟨j, rj, hj⟩ := genInt_isSome 0 nodes r h3
        obtain ⟨hj0, -, -⟩ := genInt_eq_some hj
        rw [randBind_some_step hj, randBind_some_step
          (liftOpt_tryIntoNat_step hj0 rj)]
        exact ⟨_, _, rfl⟩
      · rw [if_neg h3]
        obtain ⟨j, rj, hj⟩ := genInt_isSome 0 inputs r hin
        obtain ⟨hj0, -, -⟩ := genInt_eq_some hj
        rw [randBind_some_step hj, randBind_some_step
          (liftOpt_tryIntoNat_step hj0 rj)]
        exact ⟨_, _, rfl⟩
    · rw [if_neg h2]
      exact ⟨_, _, rfl⟩
  · rw [if_neg h1]
    exact ⟨_, _, rfl⟩

theorem repairEnd_isSome (nodes outputs : ℤ) (idx : ℕ) (c : Connection)
    (hout : 0 < outputs) (r : Rng) :
    ∃ c2 r2, repairEnd nodes outputs idx c r = some (c2, r2) := by
  unfold repairEnd
  by_cases h1 : c.end_layer = 1 ∧ idx ≤ c.end_idx
  · rw [if_pos h1]
    by_cases h2 : c.end_idx = idx
    · rw [if_pos h2]
      by_cases h3 : 0 < nodes
      · rw [if_pos h3]
        obtain ⟨j, rj, hj⟩ := genInt_isSome 0 nodes r h3
        obtain ⟨hj0, -, -⟩ := genInt_eq_some hj
        rw [randBind_some_step hj, randBind_some_step
          (liftOpt_tryIntoNat_step hj0 rj)]
        exact ⟨_, _, rfl⟩
      · rw [if_neg h3]
        obtain ⟨j, rj, hj⟩ := genInt_isSome 0 outputs r hout
        obtain ⟨hj0, -, -⟩ := genInt_eq_some hj
        rw [randBind_some_step hj, randBind_some_step
          (liftOpt_tryIntoNat_step hj0 rj)]
        exact ⟨_, _, rfl⟩
    · rw [if_neg h2]
      exact ⟨_, _, rfl⟩
  · rw [if_neg h1]
    exact ⟨_, _, rfl⟩

theorem repairConn_isSome (nodes inputs outputs : ℤ) (idx : ℕ)
    (c : Connection) (hin : 0 < inputs) (hout : 0 < outputs) (r : Rng) :
    ∃ c2 r2, repairConn nodes inputs outputs idx c r = some (c2, r2) := by
  unfold repairConn
  obtain ⟨c1, r1, h1⟩ := repairStart_isSome nodes inputs idx c hin r
  rw [randBind_some_step h1]
  exact repairEnd_isSome nodes outputs idx c1 hout r1

theorem mapRand_isSome {α β : Type} {f : α → RandM β} :
    ∀ {l : List α}, (∀ x ∈ l, ∀ r, ∃ y r2, f x r = some (y, r2)) →
      ∀ r, ∃ l2 r2, mapRand f l r = some (l2, r2) := by
  intro l
  induction l with
  | nil =>
    intro hf r
    exact ⟨[], r, rfl⟩
  | cons x xs ih =>
    intro hf r
    obtain ⟨y, r1, hy⟩ := hf x (List.mem_cons_self ..) r
    obtain ⟨ys, r2, hys⟩ := ih (fun z hz => hf z (List.mem_cons_of_mem x hz)) r1
    refine ⟨y :: ys, r2, ?_⟩
    show ((f x) >>= fun y0 => (mapRand f xs) >>= fun ys0 =>
      pure (y0 :: ys0)) r = some (y :: ys, r2)
    rw [randBind_some_step hy, randBind_some_step hys, randPure_apply]

theorem editDeleteNode_total (ch : ℚ) (a : Agent) (r : Rng)
    (hdl : 1 < a.data_lists.length) (hin : 0 < a.inputs)
    (hout : 0 < a.outputs) :
    ∃ b r2, editDeleteNode ch a r = some (b, r2) := by
  unfold editDeleteNode
  obtain ⟨u, r1, hu⟩ := genFloat_isSome 0 1 r (by norm_num)
  rw [randBind_some_step hu]
  by_cases hg : u < ch ∧ 0 < a.nodes
  · rw [if_pos hg]
    obtain ⟨iz, r3, hiz⟩ := genInt_isSome 0 a.nodes r1 hg.2
    obtain ⟨hiz0, -, -⟩ := genInt_eq_some hiz
    rw [randBind_some_step hiz, randBind_some_step
      (liftOpt_tryIntoNat_step hiz0 r3)]
    dsimp only
    obtain ⟨conns, r5, hconns⟩ := mapRand_isSome
      (fun c hc rr => repairConn_isSome (a.nodes - 1) a.inputs a.outputs
        iz.toNat c hin hout rr) r3
    rw [randBind_some_step hconns]
    obtain ⟨x, hx⟩ : ∃ x, a.data_lists[1]? = some x :=
      ⟨_, List.getElem?_eq_getElem hdl⟩
    rw [randBind_some_step
      (by rw [hx, liftOpt_some_apply] :
        liftOpt (a.data_lists[1]?) r5 = some (x, r5))]
    exact ⟨_, _, randPure_apply _ _⟩
  · rw [if_neg hg]
    exact ⟨_, _, randPure_apply _ _⟩

theorem editAddNode_total (ch : ℚ) (a : Agent) (r : Rng)
    (hdl : 1 < a.data_lists.length) :
    ∃ b r2, editAddNode ch a r = some (b, r2) := by
  unfold editAddNode
  obtain ⟨u, r1, hu⟩ := genFloat_isSome 0 1 r (by norm_num)
  rw [randBind_some_step hu]
  by_cases hg : u < ch
  · rw [if_pos hg]
    obtain ⟨x, hx⟩ : ∃ x, a.data_lists[1]? = some x :=
      ⟨_, List.getElem?_eq_getElem hdl⟩
    rw [randBind_some_step
      (by rw [hx, liftOpt_some_apply] :
        liftOpt (a.data_lists[1]?) r1 = some (x, r1))]
    exact ⟨_, _, randPure_apply _ _⟩
  · rw [if_neg hg]
    exact ⟨_, _, randPure_apply _ _⟩

theorem editDeleteConnection_total (ch : ℚ) (a : Agent) (r : Rng)
    (hs3 : a.connections.toNat = a.connection_list.length) :
    ∃ b r2, editDeleteConnection ch a r = some (b, r2) := by
  unfold editDeleteConnection
  obtain ⟨u, r1, hu⟩ := genFloat_isSome 0 1 r (by norm_num)
  rw [randBind_some_step hu]
  by_cases hg : u < ch ∧ 0 < a.connections
  · rw [if_pos hg]
    obtain ⟨iz, r3, hiz⟩ := genInt_isSome 0 a.connections r1 hg.2
    obtain ⟨hiz0, hizlt, -⟩ := genInt_eq_some hiz
    rw [randBind_some_step hiz, randBind_some_step
      (liftOpt_tryIntoNat_step hiz0 r3)]
    rw [if_pos (by omega : iz.toNat < a.connection_list.length)]
    exact ⟨_, _, randPure_apply _ _⟩
  · rw [if_neg hg]
    exact ⟨_, _, randPure_apply _ _⟩

theorem editChangeWeight_total (ch mw : ℚ) (a : Agent) (r : Rng)
    (hs3 : a.connections.toNat = a.connection_list.length) (hmw : 0 < mw) :
    ∃ b r2, editChangeWeight ch mw a r = some (b, r2) := by
  unfold editChangeWeight
  obtain ⟨u, r1, hu⟩ := genFloat_isSome 0 1 r (by norm_num)
  rw [randBind_some_step hu]
  by_cases hg : u < ch ∧ 0 < a.connections
  · rw [if_pos hg]
    obtain ⟨iz, r3, hiz⟩ := genInt_isSome 0 a.connections r1 hg.2
    obtain ⟨hiz0, hizlt, -⟩ := genInt_eq_some hiz
    rw [randBind_some_step hiz, randBind_some_step
      (liftOpt_tryIntoNat_step hiz0 r3)]
    obtain ⟨c0, hc0⟩ : ∃ c0, a.connection_list[iz.toNat]? = some c0 :=
      ⟨_, List.getElem?_eq_getElem (by omega)⟩
    rw [randBind_some_step
      (by rw [hc0, liftOpt_some_apply] :
        liftOpt (a.connection_list[iz.toNat]?) r3 = some (c0, r3))]
    obtain ⟨w, r4, hw⟩ := genFloat_isSome (-mw) mw r3 (by linarith : -mw < mw)
    rw [randBind_some_step hw]
    exact ⟨_, _, randPure_apply _ _⟩
  · rw [if_neg hg]
    exact ⟨_, _, randPure_apply _ _⟩

theorem editNewConnection_total (ch mw : ℚ) (a : Agent) (r : Rng)
    (hin : 0 < a.inputs) (hout : 0 < a.outputs) (hmw : 0 < mw) :
    ∃ b r2, editNewConnection ch mw a r = some (b, r2) := by
  unfold editNewConnection
  obtain ⟨u, r1, hu⟩ := genFloat_isSome 0 1 r (by norm_num)
  rw [randBind_some_step hu]
  by_cases hg : u < ch
  · rw [if_pos hg]
    dsimp only
    by_cases hpos : 0 < a.nodes
    · rw [if_pos hpos]
      obtain ⟨sl, r3, hsl⟩ := genNatIncl_isSome 0 1 r1 (by omega)
      rw [randBind_some_step hsl]
      by_cases hb : sl = 0
      · rw [if_pos hb]
        obtain ⟨si, r4, hsi⟩ := genInt_isSome 0 a.inputs r3 hin
        obtain ⟨hsi0, -, -⟩ := genInt_eq_some hsi
        rw [randBind_some_step hsi]
        obtain ⟨el, r5, hel⟩ := genNatIncl_isSome 1 2 r4 (by omega)
        rw [randBind_some_step hel]
        by_cases heb : el = 1
        · rw [if_pos heb]
          obtain ⟨ei, r6, hei⟩ := genInt_isSome 0 a.nodes r5 hpos
          obtain ⟨hei0, -, -⟩ := genInt_eq_some hei
          rw [randBind_some_step hei,
            randBind_some_step (liftOpt_tryIntoNat_step hsi0 r6),
            randBind_some_step (liftOpt_tryIntoNat_step hei0 r6)]
          obtain ⟨w, r7, hw⟩ := genFloat_isSome (-mw) mw r6 (by linarith)
          rw [randBind_some_step hw]
          exact ⟨_, _, randPure_apply _ _⟩
        · rw [if_neg heb]
          obtain ⟨ei, r6, hei⟩ := genInt_isSome 0 a.outputs r5 hout
          obtain ⟨hei0, -, -⟩ := genInt_eq_some hei
          rw [randBind_some_step hei,
            randBind_some_step (liftOpt_tryIntoNat_step hsi0 r6),
            randBind_some_step (liftOpt_tryIntoNat_step hei0 r6)]
          obtain ⟨w, r7, hw⟩ := genFloat_isSome (-mw) mw r6 (by linarith)
          rw [randBind_some_step hw]
          exact ⟨_, _, randPure_apply _ _⟩
      · rw [if_neg hb]
        obtain ⟨si, r4, hsi⟩ := genInt_isSome 0 a.nodes r3 hpos
        obtain ⟨hsi0, -, -⟩ := genInt_eq_some hsi
        rw [randBind_some_step hsi]
        obtain ⟨el, r5, hel⟩ := genNatIncl_isSome 1 2 r4 (by omega)
        rw [randBind_some_step hel]
        by_cases heb : el = 1
        · rw [if_pos heb]
          obtain ⟨ei, r6, hei⟩ := genInt_isSome 0 a.nodes r5 hpos
          obtain ⟨hei0, -, -⟩ := genInt_eq_some hei
          rw [randBind_some_step hei,
            randBind_some_step (liftOpt_tryIntoNat_step hsi0 r6),
            randBind_some_step (liftOpt_tryIntoNat_step hei0 r6)]
          obtain ⟨w, r7, hw⟩ := genFloat_isSome (-mw) mw r6 (by linarith)
          rw [randBind_some_step hw]
          exact ⟨_, _, randPure_apply _ _⟩
        · rw [if_neg heb]
          obtain ⟨ei, r6, hei⟩ := genInt_isSome 0 a.outputs r5 hout
          obtain ⟨hei0, -, -⟩ := genInt_eq_some hei
          rw [randBind_some_step hei,
            randBind_some_step (liftOpt_tryIntoNat_step hsi0 r6),
            randBind_some_step (liftOpt_tryIntoNat_step hei0 r6)]
          obtain ⟨w, r7, hw⟩ := genFloat_isSome (-mw) mw r6 (by linarith)
          rw [randBind_some_step hw]
          exact ⟨_, _, randPure_apply _ _⟩
    · rw [if_neg hpos]
      obtain ⟨si, r3, hsi⟩ := genInt_isSome 0 a.inputs r1 hin
      obtain ⟨hsi0, -, -⟩ := genInt_eq_some hsi
      rw [randBind_some_step hsi]
      obtain ⟨ei, r4, hei⟩ := genInt_isSome 0 a.outputs r3 hout
      obtain ⟨hei0, -, -⟩ := genInt_eq_some hei
      rw [randBind_some_step hei,
        randBind_some_step (liftOpt_tryIntoNat_step hsi0 r4),
        randBind_some_step (liftOpt_tryIntoNat_step hei0 r4)]
      obtain ⟨w, r5, hw⟩ := genFloat_isSome (-mw) mw r4 (by linarith)
      rw [randBind_some_step hw]
      exact ⟨_, _, randPure_apply _ _⟩
  · rw [if_neg hg]
    exact ⟨_, _, randPure_apply _ _⟩

theorem editChangeConnection_total (ch : ℚ) (a : Agent) (r : Rng)
    (hin : 0 < a.inputs) (hout : 0 < a.outputs)
    (hs3 : a.connections.toNat = a.connection_list.length) :
    ∃ b r2, editChangeConnection ch a r = some (b, r2) := by
  unfold editChangeConnection
  obtain ⟨u, r1, hu⟩ := genFloat_isSome 0 1 r (by norm_num)
  rw [randBind_some_step hu]
  by_cases hg : u < ch ∧ 0 < a.connections
  · rw [if_pos hg]
    obtain ⟨iz, r3, hiz⟩ := genInt_isSome 0 a.connections r1 hg.2
    obtain ⟨hiz0, hizlt, -⟩ := genInt_eq_some hiz
    rw [randBind_some_step hiz, randBind_some_step
      (liftOpt_tryIntoNat_step hiz0 r3)]
    obtain ⟨c0, hc0⟩ : ∃ c0, a.connection_list[iz.toNat]? = some c0 :=
      ⟨_, List.getElem?_eq_getElem (by omega)⟩
    rw [randBind_some_step
      (by rw [hc0, liftOpt_some_apply] :
        liftOpt (a.connection_list[iz.toNat]?) r3 = some (c0, r3))]
    by_cases hpos : 0 < a.nodes
    · rw [if_pos hpos]
      obtain ⟨nsl, r4, hnsl⟩ := genNatIncl_isSome 0 1 r3 (by omega)
      rw [randBind_some_step hnsl]
      obtain ⟨nel, r5, hnel⟩ := genNatIncl_isSome 1 2 r4 (by omega)
      rw [randBind_some_step hnel, randPure_bind]
      dsimp only
      by_cases hb : nsl = 0
      · rw [if_pos hb]
        obtain ⟨si, r6, hsi⟩ := genInt_isSome 0 a.inputs r5 hin
        obtain ⟨hsi0, -, -⟩ := genInt_eq_some hsi
        rw [randBind_some_step hsi, randBind_some_step
          (liftOpt_tryIntoNat_step hsi0 r6), randPure_bind]
        dsimp only
        by_cases heb : nel = 1
        · rw [if_pos heb]
          obtain ⟨ei, r7, hei⟩ := genInt_isSome 0 a.nodes r6 hpos
          obtain ⟨hei0, -, -⟩ := genInt_eq_some hei
          rw [randBind_some_step hei, randBind_some_step
            (liftOpt_tryIntoNat_step hei0 r7), randPure_bind]
          exact ⟨_, _, randPure_apply _ _⟩
        · rw [if_neg heb]
          obtain ⟨ei, r7, hei⟩ := genInt_isSome 0 a.outputs r6 hout
          obtain ⟨hei0, -, -⟩ := genInt_eq_some hei
          rw [randBind_some_step hei, randBind_some_step
            (liftOpt_tryIntoNat_step hei0 r7), randPure_bind]
          exact ⟨_, _, randPure_apply _ _⟩
      · rw [if_neg hb]
        obtain ⟨si, r6, hsi⟩ := genInt_isSome 0 a.nodes r5 hpos
        obtain ⟨hsi0, -, -⟩ := genInt_eq_some hsi
        rw [randBind_some_step hsi, randBind_some_step
          (liftOpt_tryIntoNat_step hsi0 r6), randPure_bind]
        dsimp only
        by_cases heb : nel = 1
        · rw [if_pos heb]
          obtain ⟨ei, r7, hei⟩ := genInt_isSome 0 a.nodes r6 hpos
          obtain ⟨hei0, -, -⟩ := genInt_eq_some hei
          rw [randBind_some_step hei, randBind_some_step
            (liftOpt_tryIntoNat_step hei0 r7), randPure_bind]
          exact ⟨_, _, randPure_apply _ _⟩
        · rw [if_neg heb]
          obtain ⟨ei, r7, hei⟩ := genInt_isSome 0 a.outputs r6 hout
          obtain ⟨hei0, -, -⟩ := genInt_eq_some hei
          rw [randBind_some_step hei, randBind_some_step
            (liftOpt_tryIntoNat_step hei0 r7), randPure_bind]
          exact ⟨_, _, randPure_apply _ _⟩
    · rw [if_neg hpos, randPure_bind]
      dsimp only
      rw [if_pos rfl]
      obtain ⟨si, r6, hsi⟩ := genInt_isSome 0 a.inputs r3 hin
      obtain ⟨hsi0, -, -⟩ := genInt_eq_some hsi
      rw [randBind_some_step hsi, randBind_some_step
        (liftOpt_tryIntoNat_step hsi0 r6), randPure_bind]
      dsimp only
      rw [if_neg (by decide : ¬ (2 = 1))]
      obtain ⟨ei, r7, hei⟩ := genInt_isSome 0 a.outputs r6 hout
      obtain ⟨hei0, -, -⟩ := genInt_eq_some hei
      rw [randBind_some_step hei, randBind_some_step
        (liftOpt_tryIntoNat_step hei0 r7), randPure_bind]
      exact ⟨_, _, randPure_apply _ _⟩
  · rw [if_neg hg]
    exact ⟨_, _, randPure_apply _ _⟩

/-- C7 amended: `reproduce` is total — every gated edit that cannot legally
apply is skipped rather than failing — for every well-formed parent with
positive input and output counts and a positive `max_weight`; the
counterexample `C7_cex` shows totality genuinely fails when the input count
is zero. -/
theorem C7_reproduce_total (a : Agent) (n1 n2 n3 n4 n5 n6 mw : ℚ) (r : Rng)
    (hwf : AgentWF a) (hin : 0 < a.inputs) (hout : 0 < a.outputs)
    (hmw : 0 < mw) :
    ∃ b r2, reproduce a n1 n2 n3 n4 n5 n6 mw r = some (b, r2) := by
  unfold reproduce
  obtain ⟨b1, q1, h1⟩ := editDeleteNode_total n3 a r
    (by rw [hwf.2.2.2.1]; norm_num) hin hout
  have e1 := (editDeleteNode_ok h1 : EditOk mw a b1)
  have wf1 := e1.2.2.2.2.1 hwf
  rw [randBind_some_step h1]
  obtain ⟨b2, q2, h2⟩ := editAddNode_total n1 b1 q1
    (by rw [wf1.2.2.2.1]; norm_num)
  have e2 := EditOk_trans e1 (editAddNode_ok h2 : EditOk mw b1 b2)
  have wf2 := e2.2.2.2.2.1 hwf
  rw [randBind_some_step h2]
  obtain ⟨b3, q3, h3⟩ := editDeleteConnection_total n4 b2 q2 wf2.2.2.1.2.2.1
  have e3 := EditOk_trans e2 (editDeleteConnection_ok h3 : EditOk mw b2 b3)
  have wf3 := e3.2.2.2.2.1 hwf
  rw [randBind_some_step h3]
  obtain ⟨b4, q4, h4⟩ := editNewConnection_total n2 mw b3 q3
    (by rw [e3.1]; exact hin) (by rw [e3.2.1]; exact hout) hmw
  have e4 := EditOk_trans e3 (editNewConnection_ok h4 : EditOk mw b3 b4)
  have wf4 := e4.2.2.2.2.1 hwf
  rw [randBind_some_step h4]
  obtain ⟨b5, q5, h5⟩ := editChangeConnection_total n6 b4 q4
    (by rw [e4.1]; exact hin) (by rw [e4.2.1]; exact hout) wf4.2.2.1.2.2.1
  have e5 := EditOk_trans e4 (editChangeConnection_ok h5 : EditOk mw b4 b5)
  have wf5 := e5.2.2.2.2.1 hwf
  rw [randBind_some_step h5]
  exact editChangeWeight_total n5 mw b5 q5 wf5.2.2.1.2.2.1 hmw

/-- Witness for the amended C7 at a concrete agent, rates and randomness. -/
theorem C7_reproduce_total_witness :
    ∃ b r2, reproduce testAgent 1 1 1 1 1 1 3 zeroRng = some (b, r2) :=
  C7_reproduce_total testAgent 1 1 1 1 1 1 3 zeroRng (by decide) (by decide)
    (by decide) (by decide)
